import Mathlib

/-!
# Verification of the dual-avatar-platform video-composition engines

Shallow embedding of the three algorithmic subsystems of the repository:

* the Timeline Engine (`src/platforms/manual/backend/src/services/timeline.service.ts`),
* the Gaze Correction Engine (`src/.../eyetracking service`, file `part_006`),
* the Subtitle Segmenter (`src/.../services/transcription.service.ts`).

JavaScript `number` is modelled as `ℚ` (the claims under study are exact
arithmetic identities; where the source's `Math.sqrt` matters the embedding
takes the square-root function as an explicit parameter, and theorems either
hold for every such function or assume only `sqrt 0 = 0`, which is true of
`Math.sqrt`).  JavaScript truthiness of numbers (`x || d`) is modelled
explicitly: `0` is falsy.  Database round-trips in the source
(`INSERT ... RETURNING` followed by `parseClipFromRow`) are identities on the
fields modelled here, so the operations are embedded as pure functions; the
freshly generated `uuid` of a created clip is passed in as an argument.
-/

namespace DualAvatar

/-! ## Timeline Engine: data model (interface `TimelineClip`)

The JSON-blob fields `properties`, `effects` and `transitions` are opaque
payloads never inspected by any of the operations under study; they are
omitted from the embedding.  `type` is `Option String` because the source's
`validateTimeline` tests its JS-truthiness (`!clip.type`). -/

structure TimelineClip where
  id : String
  trackIndex : ℤ
  startTime : ℚ
  endTime : ℚ
  duration : ℚ
  type : Option String
  sourceAssetId : Option String
  sourceUrl : Option String
  volume : ℚ
  muted : Bool
  zIndex : ℤ
  deriving DecidableEq, Repr

/-- The `Partial<TimelineClip>` argument of `createTimelineClip`
(`clipData`); `startTime`/`endTime` are used with the `!` non-null assertion
in the source, so they are required here. -/
structure ClipData where
  trackIndex : Option ℤ
  startTime : ℚ
  endTime : ℚ
  duration : Option ℚ
  type : Option String
  sourceAssetId : Option String
  sourceUrl : Option String
  volume : Option ℚ
  muted : Option Bool
  zIndex : Option ℤ
  deriving DecidableEq, Repr

/-- JS `x || d` for an optional number: `undefined` and `0` are falsy. -/
def jsOrQ (x : Option ℚ) (d : ℚ) : ℚ :=
  match x with
  | none => d
  | some v => if v = 0 then d else v

/-- JS `x || d` for an optional integer. -/
def jsOrZ (x : Option ℤ) (d : ℤ) : ℤ :=
  match x with
  | none => d
  | some v => if v = 0 then d else v

/-- JS `x || null` for an optional string: `undefined`, `null` and `""` all
collapse to `null`. -/
def jsOrNullStr (x : Option String) : Option String :=
  match x with
  | none => none
  | some s => if s = "" then none else some s

/-- `createTimelineClip(videoId, userId, clipData)` of
`timeline.service.ts` (lines 44–79): the row inserted into `timeline_clips`
and read back.  Note that the source performs **no** range validation and
that an explicit non-zero `duration` field wins over `endTime - startTime`
(`clipData.duration || (clipData.endTime! - clipData.startTime!)`). -/
def createTimelineClip (clipId : String) (clipData : ClipData) : TimelineClip :=
  { id := clipId
    trackIndex := jsOrZ clipData.trackIndex 0
    startTime := clipData.startTime
    endTime := clipData.endTime
    duration := jsOrQ clipData.duration (clipData.endTime - clipData.startTime)
    type := clipData.type
    sourceAssetId := jsOrNullStr clipData.sourceAssetId
    sourceUrl := jsOrNullStr clipData.sourceUrl
    volume := clipData.volume.getD 1
    muted := clipData.muted.getD false
    zIndex := jsOrZ clipData.zIndex 0 }

/-- The update record of `updateTimelineClip` (only the fields relevant to
the operations under study; each `SET` field is applied only when present,
mirroring the `!== undefined` guards of the source). -/
structure ClipUpdate where
  trackIndex : Option ℤ := none
  startTime : Option ℚ := none
  endTime : Option ℚ := none
  duration : Option ℚ := none
  volume : Option ℚ := none
  muted : Option Bool := none
  zIndex : Option ℤ := none
  deriving DecidableEq, Repr

/-- `updateTimelineClip` (lines 96–154), restricted to the clip row it
rewrites. -/
def updateTimelineClip (c : TimelineClip) (u : ClipUpdate) : TimelineClip :=
  { c with
    trackIndex := u.trackIndex.getD c.trackIndex
    startTime := u.startTime.getD c.startTime
    endTime := u.endTime.getD c.endTime
    duration := u.duration.getD c.duration
    volume := u.volume.getD c.volume
    muted := u.muted.getD c.muted
    zIndex := u.zIndex.getD c.zIndex }

/-- `trimClip(clipId, newStartTime, newEndTime)` (lines 189–201).  No range
check is performed. -/
def trimClip (c : TimelineClip) (newStartTime newEndTime : ℚ) : TimelineClip :=
  updateTimelineClip c
    { startTime := some newStartTime
      endTime := some newEndTime
      duration := some (newEndTime - newStartTime) }

/-- The `ClipData` corresponding to the object spread `{...originalClip}`
used by `duplicateTimelineClip` and `splitClip`. -/
def clipDataOfClip (c : TimelineClip) : ClipData :=
  { trackIndex := some c.trackIndex
    startTime := c.startTime
    endTime := c.endTime
    duration := some c.duration
    type := c.type
    sourceAssetId := c.sourceAssetId
    sourceUrl := c.sourceUrl
    volume := some c.volume
    muted := some c.muted
    zIndex := some c.zIndex }

/-- `duplicateTimelineClip(clipId, offsetTime)` (lines 166–184):
`const offset = offsetTime || originalClip.duration` (JS `||`, so an explicit
offset of `0` also falls back to the duration). -/
def duplicateTimelineClip (newId : String) (c : TimelineClip)
    (offsetTime : Option ℚ) : TimelineClip :=
  let offset := jsOrQ offsetTime c.duration
  createTimelineClip newId
    { clipDataOfClip c with
      startTime := c.startTime + offset
      endTime := c.endTime + offset }

/-- `splitClip(clipId, splitTime)` (lines 206–241).  The source throws
`Error('Split time must be within clip bounds')` unless
`startTime < splitTime < endTime` strictly; on success the original clip is
updated to end at `splitTime` and a second clip is created from `splitTime`
to the original end. -/
def splitClip (newId : String) (c : TimelineClip) (splitTime : ℚ) :
    Except String (TimelineClip × TimelineClip) :=
  if splitTime ≤ c.startTime ∨ c.endTime ≤ splitTime then
    Except.error "Split time must be within clip bounds"
  else
    Except.ok
      (updateTimelineClip c
        { endTime := some splitTime
          duration := some (splitTime - c.startTime) },
       createTimelineClip newId
        { clipDataOfClip c with
          startTime := splitTime
          endTime := c.endTime
          duration := some (c.endTime - splitTime) })

/-! ## Timeline Engine: collision detection (lines 246–286) -/

structure ClipCollision where
  clip1 : TimelineClip
  clip2 : TimelineClip
  overlapStart : ℚ
  overlapEnd : ℚ
  deriving DecidableEq, Repr

/-- One step of the `trackGroups` accumulation: a JS `Map<number, clips[]>`
is an association list keyed in insertion order, each group extended by
`push`. -/
def addToGroups (acc : List (ℤ × List TimelineClip)) (c : TimelineClip) :
    List (ℤ × List TimelineClip) :=
  match acc with
  | [] => [(c.trackIndex, [c])]
  | (k, g) :: rest =>
      if k = c.trackIndex then (k, g ++ [c]) :: rest
      else (k, g) :: addToGroups rest c

/-- Grouping of the clips by `trackIndex`, in insertion order. -/
def trackGroups (clips : List TimelineClip) : List (ℤ × List TimelineClip) :=
  clips.foldl addToGroups []

/-- All ordered pairs `(i, j)` with `i < j` of a list, in the double-loop
order of the source. -/
def listPairs {α : Type} : List α → List (α × α)
  | [] => []
  | x :: xs => xs.map (fun y => (x, y)) ++ listPairs xs

/-- The body of the inner double loop: report a collision iff
`overlapStart < overlapEnd`. -/
def collisionOfPair (p : TimelineClip × TimelineClip) : Option ClipCollision :=
  let overlapStart := max p.1.startTime p.2.startTime
  let overlapEnd := min p.1.endTime p.2.endTime
  if overlapStart < overlapEnd then
    some { clip1 := p.1, clip2 := p.2, overlapStart := overlapStart, overlapEnd := overlapEnd }
  else none

/-- `detectClipCollisions(clips)` (lines 246–286). -/
def detectClipCollisions (clips : List TimelineClip) : List ClipCollision :=
  (trackGroups clips).flatMap (fun kg => (listPairs kg.2).filterMap collisionOfPair)

/-! ## Timeline Engine: auto-arrangement (lines 291–312) -/

/-- `[...clips].sort((a, b) => a.startTime - b.startTime)`: JS `sort` is
stable and ascending; a stable sort is uniquely determined, and is realised
here as insertion sort inserting each element in front of the first element
with a key `≥` its own. -/
def insertByStart (c : TimelineClip) : List TimelineClip → List TimelineClip
  | [] => [c]
  | d :: ds => if c.startTime ≤ d.startTime then c :: d :: ds else d :: insertByStart c ds

def sortByStart : List TimelineClip → List TimelineClip
  | [] => []
  | c :: cs => insertByStart c (sortByStart cs)

/-- The per-clip body of `autoArrangeClips`: shift a clip forward to the
track cursor when it starts before it (preserving its extent), else leave it
unchanged. -/
def shiftClip (trackEnd : ℚ) (c : TimelineClip) : TimelineClip :=
  if c.startTime < trackEnd then
    { c with startTime := trackEnd, endTime := c.endTime + (trackEnd - c.startTime) }
  else c

/-- The arrangement loop over the already-sorted clips.  `trackEndTimes` is
the `Map<number, number>` of cursors, total with default `0`
(`trackEndTimes.get(idx) || 0`; a stored `0` and an absent key coincide). -/
def processArrange (trackEndTimes : ℤ → ℚ) : List TimelineClip → List TimelineClip
  | [] => []
  | c :: cs =>
      let c' := shiftClip (trackEndTimes c.trackIndex) c
      c' :: processArrange (Function.update trackEndTimes c.trackIndex c'.endTime) cs

/-- `autoArrangeClips(clips)` (lines 291–312). -/
def autoArrangeClips (clips : List TimelineClip) : List TimelineClip :=
  processArrange (fun _ => 0) (sortByStart clips)

/-! ## Timeline Engine: validation (lines 414–450) -/

/-- The error strings collected for one clip, in source order.  JS
truthiness again: `!clip.type` holds for a missing and for an empty type,
likewise for the two source references. -/
def clipErrors (index : ℕ) (c : TimelineClip) : List String :=
  (if c.startTime < 0 then
    ["Clip " ++ toString index ++ ": Start time cannot be negative"] else []) ++
  (if c.endTime ≤ c.startTime then
    ["Clip " ++ toString index ++ ": End time must be after start time"] else []) ++
  (if c.duration ≠ c.endTime - c.startTime then
    ["Clip " ++ toString index ++ ": Duration mismatch"] else []) ++
  (if c.type = none ∨ c.type = some "" then
    ["Clip " ++ toString index ++ ": Missing type"] else []) ++
  (if (c.sourceAssetId = none ∨ c.sourceAssetId = some "") ∧
      (c.sourceUrl = none ∨ c.sourceUrl = some "") ∧ c.type ≠ some "text" then
    ["Clip " ++ toString index ++ ": Missing source"] else []) ++
  (if c.volume < 0 ∨ 2 < c.volume then
    ["Clip " ++ toString index ++ ": Volume out of range (0-2)"] else [])

structure ValidationResult where
  valid : Bool
  errors : List String
  deriving DecidableEq, Repr

/-- `validateTimeline(clips)` (lines 414–450): all violations collected,
`valid` iff none. -/
def validateTimeline (clips : List TimelineClip) : ValidationResult :=
  let errors := clips.enum.flatMap (fun p => clipErrors p.1 p.2)
  { valid := errors.length == 0, errors := errors }

/-! ## Gaze Correction Engine (`part_006`)

`EyePosition` and `GazeDirection` are both `{x, y, z}` triples. -/

structure Vec3 where
  x : ℚ
  y : ℚ
  z : ℚ
  deriving DecidableEq, Repr

/-- `EyeTrackingFrame` (the optional `headPose` is carried through the
engine untouched via the `{...frame}` spread and is omitted here). -/
structure EyeTrackingFrame where
  timestamp : ℚ
  frameNumber : ℤ
  leftEye : Vec3
  rightEye : Vec3
  gazeDirection : Vec3
  confidence : ℚ
  deriving DecidableEq, Repr

structure EyeTrackingConfig where
  targetPosition : Vec3
  correctionStrength : ℚ
  smoothing : ℚ
  preserveBlinking : Bool
  framerate : ℚ
  deriving DecidableEq, Repr

/-- Center point between the eyes (`calculateGazeToTarget`, lines 134–137). -/
def gazeCenter (leftEye rightEye : Vec3) : Vec3 :=
  { x := (leftEye.x + rightEye.x) / 2
    y := (leftEye.y + rightEye.y) / 2
    z := (leftEye.z + rightEye.z) / 2 }

/-- Direction vector from the eye center to the target (lines 139–142). -/
def gazeDelta (leftEye rightEye target : Vec3) : Vec3 :=
  { x := target.x - (gazeCenter leftEye rightEye).x
    y := target.y - (gazeCenter leftEye rightEye).y
    z := target.z - (gazeCenter leftEye rightEye).z }

/-- The argument of `Math.sqrt` in line 145: `dx*dx + dy*dy + dz*dz`. -/
def gazeMagnitudeSq (leftEye rightEye target : Vec3) : ℚ :=
  (gazeDelta leftEye rightEye target).x * (gazeDelta leftEye rightEye target).x +
  (gazeDelta leftEye rightEye target).y * (gazeDelta leftEye rightEye target).y +
  (gazeDelta leftEye rightEye target).z * (gazeDelta leftEye rightEye target).z

/-- `calculateGazeToTarget(leftEye, rightEye, target)` (lines 129–152),
parametrised by the square-root function standing for `Math.sqrt`.  The
source divides by `magnitude` **unconditionally** — there is no branch, no
error path and no guard against `magnitude = 0` (where JS produces `NaN`
components; the `ℚ` model maps division by zero to `0`). -/
def calculateGazeToTarget (sqrtFn : ℚ → ℚ) (leftEye rightEye target : Vec3) : Vec3 :=
  let d := gazeDelta leftEye rightEye target
  let magnitude := sqrtFn (gazeMagnitudeSq leftEye rightEye target)
  { x := d.x / magnitude, y := d.y / magnitude, z := d.z / magnitude }

/-- `blendGazeDirections(original, target, strength)` (lines 157–167). -/
def blendGazeDirections (original target : Vec3) (strength : ℚ) : Vec3 :=
  { x := original.x * (1 - strength) + target.x * strength
    y := original.y * (1 - strength) + target.y * strength
    z := original.z * (1 - strength) + target.z * strength }

/-- `smoothGazeDirection(previous, current, smoothing)` (lines 172–182). -/
def smoothGazeDirection (previous current : Vec3) (smoothing : ℚ) : Vec3 :=
  { x := previous.x * smoothing + current.x * (1 - smoothing)
    y := previous.y * smoothing + current.y * (1 - smoothing)
    z := previous.z * smoothing + current.z * (1 - smoothing) }

/-- The loop of `applyGazeCorrection` (lines 94–121): `prevGaze` is
`correctedFrames[i - 1].gazeDirection` when `i > 0` (`none` for the first
frame); smoothing is applied only when `i > 0 && smoothing > 0`. -/
def applyGazeCorrectionAux (sqrtFn : ℚ → ℚ) (config : EyeTrackingConfig)
    (prevGaze : Option Vec3) : List EyeTrackingFrame → List EyeTrackingFrame
  | [] => []
  | frame :: rest =>
      let desiredGaze := calculateGazeToTarget sqrtFn frame.leftEye frame.rightEye
        config.targetPosition
      let blended := blendGazeDirections frame.gazeDirection desiredGaze
        config.correctionStrength
      let correctedGaze :=
        match prevGaze with
        | some prev =>
            if 0 < config.smoothing then smoothGazeDirection prev blended config.smoothing
            else blended
        | none => blended
      { frame with gazeDirection := correctedGaze } ::
        applyGazeCorrectionAux sqrtFn config (some correctedGaze) rest

/-- `applyGazeCorrection(frames, config)` (lines 84–124). -/
def applyGazeCorrection (sqrtFn : ℚ → ℚ) (frames : List EyeTrackingFrame)
    (config : EyeTrackingConfig) : List EyeTrackingFrame :=
  applyGazeCorrectionAux sqrtFn config none frames

/-! ## Gaze Correction Engine: blink detection (lines 247–269) -/

/-- The loop of `detectBlinks`: `blinkStart` is the timestamp of the first
frame of the currently open low-confidence run (`confidence < 0.3`), if any;
an interval `(start, end)` is pushed at the first frame whose confidence
returns to `≥ 0.3`.  A run still open when the frames end is never pushed. -/
def detectBlinksAux : List EyeTrackingFrame → Option ℚ → List (ℚ × ℚ)
  | [], _ => []
  | frame :: rest, none =>
      if frame.confidence < 3/10 then detectBlinksAux rest (some frame.timestamp)
      else detectBlinksAux rest none
  | frame :: rest, some t =>
      if frame.confidence < 3/10 then detectBlinksAux rest (some t)
      else (t, frame.timestamp) :: detectBlinksAux rest none

/-- `detectBlinks(frames)` (lines 247–269). -/
def detectBlinks (frames : List EyeTrackingFrame) : List (ℚ × ℚ) :=
  detectBlinksAux frames none

/-! ## Gaze Correction Engine: metrics (lines 357–396) -/

structure EyeContactMetrics where
  averageConfidence : ℚ
  eyeContactPercentage : ℚ
  blinkCount : ℕ
  averageGazeDeviation : ℚ
  deriving DecidableEq, Repr

/-- The squared Euclidean distance of a frame's gaze from the forward
target `{x: 0, y: 0, z: 1}` (the argument of `Math.sqrt` in lines 375–379). -/
def gazeDeviationSq (frame : EyeTrackingFrame) : ℚ :=
  (frame.gazeDirection.x - 0) ^ 2 + (frame.gazeDirection.y - 0) ^ 2 +
    (frame.gazeDirection.z - 1) ^ 2

/-- `calculateEyeContactMetrics(frames)` (lines 357–396), parametrised by
the square-root function.  (`frames.length = 0` divides by zero — `NaN` in
JS, `0` in the `ℚ` model; the claims under study do not touch that case.) -/
def calculateEyeContactMetrics (sqrtFn : ℚ → ℚ) (frames : List EyeTrackingFrame) :
    EyeContactMetrics :=
  { averageConfidence := (frames.map (fun f => f.confidence)).sum / frames.length
    eyeContactPercentage :=
      ((frames.countP (fun f => decide (sqrtFn (gazeDeviationSq f) < 26/100)) : ℚ) /
        frames.length) * 100
    blinkCount := (detectBlinks frames).length
    averageGazeDeviation := (frames.map (fun f => sqrtFn (gazeDeviationSq f))).sum /
      frames.length }

/-! ## Gaze Correction Engine: heatmap (lines 319–352) -/

/-- The fixed grid size of `generateGazeHeatmap`. -/
def gridSize : ℕ := 50

/-- Bin index of one gaze coordinate:
`Math.floor((v + 1) * (gridSize / 2))`. -/
def binCoord (v : ℚ) : ℤ := Int.floor ((v + 1) * ((gridSize : ℚ) / 2))

def binX (frame : EyeTrackingFrame) : ℤ := binCoord frame.gazeDirection.x
def binY (frame : EyeTrackingFrame) : ℤ := binCoord frame.gazeDirection.y

/-- The in-range test of line 336: `x >= 0 && x < gridSize && y >= 0 && y < gridSize`. -/
def inGrid (frame : EyeTrackingFrame) : Prop :=
  0 ≤ binX frame ∧ binX frame < gridSize ∧ 0 ≤ binY frame ∧ binY frame < gridSize

instance (frame : EyeTrackingFrame) : Decidable (inGrid frame) := by
  unfold inGrid; infer_instance

/-- `heatmap[y][x]++` for one frame, guarded by the in-range test; the
`gridSize × gridSize` array is modelled as a function on `ℤ × ℤ` whose cells
outside the grid are never touched. -/
def bumpCell (grid : ℤ → ℤ → ℕ) (frame : EyeTrackingFrame) : ℤ → ℤ → ℕ :=
  fun y x =>
    if inGrid frame ∧ y = binY frame ∧ x = binX frame then grid y x + 1 else grid y x

/-- The raw (pre-normalisation) accumulation loop of `generateGazeHeatmap`
(lines 331–339). -/
def rawHeatmap (frames : List EyeTrackingFrame) : ℤ → ℤ → ℕ :=
  frames.foldl bumpCell (fun _ _ => 0)

/-- Sum of all cells of the grid. -/
def gridSum (grid : ℤ → ℤ → ℕ) : ℕ :=
  ∑ y ∈ Finset.Ico (0 : ℤ) gridSize, ∑ x ∈ Finset.Ico (0 : ℤ) gridSize, grid y x

/-- `Math.max(...heatmap.flat())` (line 342). -/
def gridMax (grid : ℤ → ℤ → ℕ) : ℕ :=
  Finset.sup (Finset.Ico (0 : ℤ) gridSize ×ˢ Finset.Ico (0 : ℤ) gridSize)
    (fun p => grid p.1 p.2)

/-- `generateGazeHeatmap(frames, width, height)` (lines 319–352); `width`
and `height` are accepted and ignored by the source.  Counts are divided by
the maximum cell value when it is positive, else left as the (all-zero)
counts. -/
def generateGazeHeatmap (frames : List EyeTrackingFrame) (_width _height : ℚ) :
    ℤ → ℤ → ℚ :=
  let heatmap := rawHeatmap frames
  let maxValue := gridMax heatmap
  if 0 < maxValue then fun y x => (heatmap y x : ℚ) / (maxValue : ℚ)
  else fun y x => (heatmap y x : ℚ)

/-! ## Subtitle Segmenter (`transcription.service.ts`, lines 304–350)

The source's `word.end` field is called `endT` here (`end` is a Lean
keyword). -/

structure TranscriptWord where
  word : String
  start : ℚ
  endT : ℚ
  confidence : ℚ
  deriving DecidableEq, Repr

structure TranscriptionSegment where
  id : ℤ
  text : String
  start : ℚ
  endT : ℚ
  words : Option (List TranscriptWord)
  deriving DecidableEq, Repr

structure SubtitleEntry where
  start : ℚ
  endT : ℚ
  text : String
  deriving DecidableEq, Repr

/-- The inner word loop of `createSubtitleEntries`: `currentEntry` is the
entry opened at the most recent break; before appending word `w` the source
tests `newText.length > maxCharsPerLine || w.end - currentEntry.start >
maxDuration` and on a break pushes the current entry and restarts at `w`.
After the loop the current entry is pushed if its text is truthy. -/
def packWords (maxCharsPerLine : ℕ) (maxDuration : ℚ) (currentEntry : SubtitleEntry) :
    List TranscriptWord → List SubtitleEntry
  | [] => if currentEntry.text ≠ "" then [currentEntry] else []
  | w :: rest =>
      let duration := w.endT - currentEntry.start
      let newText := currentEntry.text ++ " " ++ w.word
      if newText.length > maxCharsPerLine ∨ duration > maxDuration then
        currentEntry :: packWords maxCharsPerLine maxDuration
          { start := w.start, endT := w.endT, text := w.word } rest
      else
        packWords maxCharsPerLine maxDuration
          { start := currentEntry.start, endT := w.endT, text := newText } rest

/-- `createSubtitleEntries(segments, maxCharsPerLine, maxDuration)`
(lines 304–350): segments without word-level timestamps are skipped
(`segment.words || []` and `if (words.length === 0) continue`). -/
def createSubtitleEntries (segments : List TranscriptionSegment)
    (maxCharsPerLine : ℕ) (maxDuration : ℚ) : List SubtitleEntry :=
  segments.flatMap (fun segment =>
    match segment.words with
    | none => []
    | some [] => []
    | some (w :: rest) =>
        packWords maxCharsPerLine maxDuration
          { start := w.start, endT := w.endT, text := w.word } rest)

/-! ## Shared helper lemmas -/

/-- Blending with strength `0` is the identity. -/
theorem blendGazeDirections_zero (original target : Vec3) :
    blendGazeDirections original target 0 = original := by
  cases original
  simp only [blendGazeDirections, Vec3.mk.injEq]
  refine ⟨by ring, by ring, by ring⟩

/-- Blending with strength `1` returns the target. -/
theorem blendGazeDirections_one (original target : Vec3) :
    blendGazeDirections original target 1 = target := by
  cases target
  simp only [blendGazeDirections, Vec3.mk.injEq]
  refine ⟨by ring, by ring, by ring⟩

/-- With zero correction strength and zero smoothing, the gaze-correction
loop returns its input frames unchanged, whatever the previous corrected
gaze was. -/
theorem applyGazeCorrectionAux_strength_zero (sqrtFn : ℚ → ℚ)
    (config : EyeTrackingConfig) (h0 : config.correctionStrength = 0)
    (hs : config.smoothing = 0) :
    ∀ (frames : List EyeTrackingFrame) (prevGaze : Option Vec3),
      applyGazeCorrectionAux sqrtFn config prevGaze frames = frames := by
  intro frames
  induction frames with
  | nil => intro prevGaze; rfl
  | cons frame rest ih =>
      intro prevGaze
      have hblend : blendGazeDirections frame.gazeDirection
          (calculateGazeToTarget sqrtFn frame.leftEye frame.rightEye
            config.targetPosition) config.correctionStrength = frame.gazeDirection := by
        rw [h0, blendGazeDirections_zero]
      cases prevGaze with
      | none =>
          simp only [applyGazeCorrectionAux, hblend, ih]
      | some prev =>
          simp only [applyGazeCorrectionAux, hs, lt_irrefl, if_false, hblend, ih]

/-- With full correction strength and zero smoothing, every output frame's
gaze is exactly `calculateGazeToTarget` of that frame. -/
theorem applyGazeCorrectionAux_strength_one (sqrtFn : ℚ → ℚ)
    (config : EyeTrackingConfig) (h1 : config.correctionStrength = 1)
    (hs : config.smoothing = 0) :
    ∀ (frames : List EyeTrackingFrame) (prevGaze : Option Vec3),
      applyGazeCorrectionAux sqrtFn config prevGaze frames =
        frames.map (fun f =>
          { f with gazeDirection :=
              calculateGazeToTarget sqrtFn f.leftEye f.rightEye config.targetPosition }) := by
  intro frames
  induction frames with
  | nil => intro prevGaze; rfl
  | cons frame rest ih =>
      intro prevGaze
      have hblend : blendGazeDirections frame.gazeDirection
          (calculateGazeToTarget sqrtFn frame.leftEye frame.rightEye
            config.targetPosition) config.correctionStrength =
          calculateGazeToTarget sqrtFn frame.leftEye frame.rightEye
            config.targetPosition := by
        rw [h1, blendGazeDirections_one]
      cases prevGaze with
      | none => simp only [applyGazeCorrectionAux, hblend, ih, List.map]
      | some prev =>
          simp only [applyGazeCorrectionAux, hs, lt_irrefl, if_false, hblend, ih, List.map]

/-! ## Concrete example data used by witnesses and counterexamples -/

/-- A well-formed video clip used as concrete input. -/
def exClip (i : String) (t : ℤ) (s e : ℚ) : TimelineClip :=
  { id := i, trackIndex := t, startTime := s, endTime := e, duration := e - s,
    type := some "video", sourceAssetId := none, sourceUrl := some "u",
    volume := 1, muted := false, zIndex := 0 }

/-- A clip-creation input with `endTime ≤ startTime` and no explicit
duration. -/
def c1BadData : ClipData :=
  { trackIndex := none, startTime := 2, endTime := 1, duration := none,
    type := some "video", sourceAssetId := none, sourceUrl := some "u",
    volume := none, muted := none, zIndex := none }

/-! ## C1 -/

/-- C1 (counterexample): the claim says `createClip` with
`endTime ≤ startTime` fails with `InvalidRange` rather than producing a
clip, and likewise `trim` with `newEnd ≤ newStart`.  The source has no such
check and no failure path at all (the embedding is a total function): on the
concrete input with `startTime = 2 > endTime = 1` it produces a clip — with
`endTime < startTime` and negative duration — and `trim` to `(5, 3)`
produces a clip of duration `-2`. -/
theorem c1_createClip_no_failure :
    createTimelineClip "c" c1BadData =
      { id := "c", trackIndex := 0, startTime := 2, endTime := 1, duration := -1,
        type := some "video", sourceAssetId := none, sourceUrl := some "u",
        volume := 1, muted := false, zIndex := 0 } ∧
    (trimClip (exClip "A" 0 0 10) 5 3).duration = -2 := by
  with_unfolding_all decide

/-- Any clip whose `endTime` does not exceed its `startTime` is flagged by
`validateTimeline`. -/
theorem validateTimeline_flags_bad_range (c : TimelineClip)
    (h : c.endTime ≤ c.startTime) : (validateTimeline [c]).valid = false := by
  have herr : (validateTimeline [c]).errors = clipErrors 0 c := by
    show clipErrors 0 c ++ [] = clipErrors 0 c
    exact List.append_nil _
  have hmem : ("Clip " ++ toString 0 ++ ": End time must be after start time") ∈
      clipErrors 0 c := by
    unfold clipErrors
    rw [if_pos h]
    simp
  have hne : (validateTimeline [c]).errors ≠ [] := by
    rw [herr]
    intro hnil
    rw [hnil] at hmem
    exact List.not_mem_nil _ hmem
  show ((validateTimeline [c]).errors.length == 0) = false
  cases hq : (validateTimeline [c]).errors with
  | nil => exact absurd hq hne
  | cons a l => rfl

/-- C1 (amended): `createClip` and `trim` perform no range validation.
With `endTime ≤ startTime` they still produce a clip whose duration
(`endTime - startTime` when no explicit duration is supplied;
`newEnd - newStart` for `trim`) is non-positive; the violation is only
reported afterwards by `validateTimeline`, which marks such a clip
invalid. -/
theorem c1_no_range_validation (clipId : String) (d : ClipData)
    (c : TimelineClip) (ns ne : ℚ)
    (hd : d.endTime ≤ d.startTime) (hdur : d.duration = none) (ht : ne ≤ ns) :
    ((createTimelineClip clipId d).duration = d.endTime - d.startTime ∧
     (createTimelineClip clipId d).duration ≤ 0 ∧
     (validateTimeline [createTimelineClip clipId d]).valid = false) ∧
    ((trimClip c ns ne).duration = ne - ns ∧
     (trimClip c ns ne).duration ≤ 0 ∧
     (validateTimeline [trimClip c ns ne]).valid = false) := by
  have hcd : (createTimelineClip clipId d).duration = d.endTime - d.startTime := by
    simp [createTimelineClip, hdur, jsOrQ]
  have htd : (trimClip c ns ne).duration = ne - ns := rfl
  refine ⟨⟨hcd, ?_, ?_⟩, htd, ?_, ?_⟩
  · rw [hcd]; linarith
  · exact validateTimeline_flags_bad_range _ (by simpa [createTimelineClip] using hd)
  · rw [htd]; linarith
  · exact validateTimeline_flags_bad_range _ (by simpa [trimClip, updateTimelineClip] using ht)

/-- Witness for C1's amended theorem at a concrete bad creation input and a
concrete bad trim. -/
theorem c1_no_range_validation_witness :
    (validateTimeline [createTimelineClip "c" c1BadData]).valid = false ∧
    (validateTimeline [trimClip (exClip "A" 0 0 10) 5 3]).valid = false :=
  ⟨(c1_no_range_validation "c" c1BadData (exClip "A" 0 0 10) 5 3
      (by with_unfolding_all decide) rfl (by with_unfolding_all decide)).1.2.2,
   (c1_no_range_validation "c" c1BadData (exClip "A" 0 0 10) 5 3
      (by with_unfolding_all decide) rfl (by with_unfolding_all decide)).2.2.2⟩

/-! ## C2 -/

/-- C2 (code evaluation at the failing input): `calculateGazeToTarget` is
**not** guarded against the degenerate case.  With `leftEye = (1,0,0)`,
`rightEye = (-1,0,0)` and `target = (0,0,0)` (the exact midpoint of the
eyes), the direction vector is `(0,0,0)`, the argument of `Math.sqrt` is
`0`, and the source divides the three zero components by the zero magnitude
(`0/0`, which is `NaN` in JS; the `ℚ` model maps it to `0`).  No
`GazeDegenerate` error is signalled and no default forward vector
`(0,0,1)` is returned, contradicting the claim.  The statement holds for
every square-root model with `sqrt 0 = 0`, which is true of `Math.sqrt`. -/
theorem c2_unguarded_degenerate_gaze (sqrtFn : ℚ → ℚ) (h0 : sqrtFn 0 = 0) :
    gazeMagnitudeSq ⟨1, 0, 0⟩ ⟨-1, 0, 0⟩ ⟨0, 0, 0⟩ = 0 ∧
    calculateGazeToTarget sqrtFn ⟨1, 0, 0⟩ ⟨-1, 0, 0⟩ ⟨0, 0, 0⟩ = ⟨0, 0, 0⟩ ∧
    (⟨0, 0, 0⟩ : Vec3) ≠ ⟨0, 0, 1⟩ := by
  have hm : gazeMagnitudeSq ⟨1, 0, 0⟩ ⟨-1, 0, 0⟩ ⟨0, 0, 0⟩ = 0 := by
    simp [gazeMagnitudeSq, gazeDelta, gazeCenter]
  refine ⟨hm, ?_, by decide⟩
  simp [calculateGazeToTarget, gazeDelta, gazeCenter, hm, h0]

/-- Witness for C2's theorem at the identity square-root model. -/
theorem c2_unguarded_degenerate_gaze_witness :
    gazeMagnitudeSq ⟨1, 0, 0⟩ ⟨-1, 0, 0⟩ ⟨0, 0, 0⟩ = 0 ∧
    calculateGazeToTarget (fun q => q) ⟨1, 0, 0⟩ ⟨-1, 0, 0⟩ ⟨0, 0, 0⟩ = ⟨0, 0, 0⟩ ∧
    (⟨0, 0, 0⟩ : Vec3) ≠ ⟨0, 0, 1⟩ :=
  c2_unguarded_degenerate_gaze (fun q => q) rfl

/-! ## C3 -/

/-- C3: `split(clip, splitTime)` fails (with the source's
out-of-bounds error) unless `startTime < splitTime < endTime` strictly;
when it succeeds, the first returned clip keeps the original id with
`endTime = splitTime`, the second is a new clip with
`startTime = splitTime` and `endTime` the original end, so
`first.endTime = second.startTime = splitTime` and the two intervals
partition the original interval with no gap or overlap. -/
theorem c3_split_partition (newId : String) (c : TimelineClip) (t : ℚ) :
    (¬(c.startTime < t ∧ t < c.endTime) →
      splitClip newId c t = Except.error "Split time must be within clip bounds") ∧
    (∀ p : TimelineClip × TimelineClip, splitClip newId c t = Except.ok p →
      (c.startTime < t ∧ t < c.endTime) ∧
      p.1.id = c.id ∧ p.1.startTime = c.startTime ∧ p.1.endTime = t ∧
      p.2.id = newId ∧ p.2.startTime = t ∧ p.2.endTime = c.endTime ∧
      p.1.trackIndex = c.trackIndex ∧ p.2.trackIndex = c.trackIndex) := by
  constructor
  · intro h
    have : t ≤ c.startTime ∨ c.endTime ≤ t := by
      rcases not_and_or.mp h with h1 | h2
      · exact Or.inl (le_of_not_lt h1)
      · exact Or.inr (le_of_not_lt h2)
    simp [splitClip, this]
  · intro p hp
    by_cases hb : t ≤ c.startTime ∨ c.endTime ≤ t
    · simp [splitClip, hb] at hp
    · have hlt : c.startTime < t ∧ t < c.endTime := by
        push_neg at hb
        exact ⟨hb.1, hb.2⟩
      simp only [splitClip, if_neg hb, Except.ok.injEq] at hp
      subst hp
      refine ⟨hlt, rfl, rfl, rfl, rfl, rfl, rfl, rfl, ?_⟩
      show (if c.trackIndex = 0 then (0 : ℤ) else c.trackIndex) = c.trackIndex
      split
      · next h0 => exact h0.symm
      · rfl

/-- Witness for C3 at a concrete clip: an in-bounds split succeeds with the
stated partition, and an out-of-bounds split fails. -/
theorem c3_split_partition_witness :
    ((exClip "A" 0 0 10).startTime < 5 ∧ (5 : ℚ) < (exClip "A" 0 0 10).endTime) ∧
    splitClip "n" (exClip "A" 0 0 10) 99 =
      Except.error "Split time must be within clip bounds" :=
  ⟨(((c3_split_partition "n" (exClip "A" 0 0 10) 5).2
      (exClip "A" 0 0 5, exClip "n" 0 5 10) (by with_unfolding_all rfl))).1,
   (c3_split_partition "n" (exClip "A" 0 0 10) 99).1
     (by with_unfolding_all decide)⟩

/-! ## C4 -/

/-- Two frames and a configuration (strength `0`, smoothing `1/2`) on which
gaze correction is not a no-op. -/
def c4Frame0 : EyeTrackingFrame :=
  { timestamp := 0, frameNumber := 0, leftEye := ⟨1, 0, 0⟩, rightEye := ⟨-1, 0, 0⟩,
    gazeDirection := ⟨1, 0, 0⟩, confidence := 1 }

def c4Frame1 : EyeTrackingFrame :=
  { c4Frame0 with timestamp := 1, frameNumber := 1, gazeDirection := ⟨0, 1, 0⟩ }

def c4ConfigSmoothed : EyeTrackingConfig :=
  { targetPosition := ⟨0, 0, 5⟩, correctionStrength := 0, smoothing := 1/2,
    preserveBlinking := true, framerate := 30 }

/-- C4 (counterexample): with `correctionStrength = 0` but
`smoothing = 1/2`, `correctSequence` is **not** a no-op: the second frame's
gaze becomes the average of the two input gazes, so the claim's
"regardless of the smoothing value" fails.  (With strength `0` the blended
gaze equals the input gaze exactly, so the result does not depend on the
square-root model; it is instantiated with the identity.) -/
theorem c4_not_noop_with_smoothing :
    applyGazeCorrection (fun q => q) [c4Frame0, c4Frame1] c4ConfigSmoothed ≠
      [c4Frame0, c4Frame1] ∧
    (applyGazeCorrection (fun q => q) [c4Frame0, c4Frame1]
        c4ConfigSmoothed).map (fun f => f.gazeDirection) =
      [⟨1, 0, 0⟩, ⟨1/2, 1/2, 0⟩] := by
  constructor
  · with_unfolding_all decide
  · with_unfolding_all decide

/-- C4 (amended): for every frame sequence and config, `correctSequence`
with `correctionStrength = 0` **and** `smoothing = 0` returns the frames
identically (a no-op); and with `correctionStrength = 1` and
`smoothing = 0`, each output frame's gaze direction exactly equals
`calculateGazeToTarget` applied to that frame's eye positions and the
config target.  Both parts hold for every square-root model. -/
theorem c4_strength_endpoints (sqrtFn : ℚ → ℚ) (frames : List EyeTrackingFrame)
    (config : EyeTrackingConfig) :
    (config.correctionStrength = 0 → config.smoothing = 0 →
      applyGazeCorrection sqrtFn frames config = frames) ∧
    (config.correctionStrength = 1 → config.smoothing = 0 →
      applyGazeCorrection sqrtFn frames config =
        frames.map (fun f =>
          { f with gazeDirection := (calculateGazeToTarget sqrtFn
              f.leftEye f.rightEye config.targetPosition) })) := by
  constructor
  · intro h0 hs
    exact applyGazeCorrectionAux_strength_zero sqrtFn config h0 hs frames none
  · intro h1 hs
    exact applyGazeCorrectionAux_strength_one sqrtFn config h1 hs frames none

def c4ConfigZero : EyeTrackingConfig :=
  { targetPosition := ⟨0, 0, 5⟩, correctionStrength := 0, smoothing := 0,
    preserveBlinking := true, framerate := 30 }

def c4ConfigFull : EyeTrackingConfig :=
  { targetPosition := ⟨0, 0, 5⟩, correctionStrength := 1, smoothing := 0,
    preserveBlinking := true, framerate := 30 }

/-- Witness for C4's amended theorem at concrete two-frame inputs for both
endpoint configurations. -/
theorem c4_strength_endpoints_witness :
    applyGazeCorrection (fun q => q) [c4Frame0, c4Frame1] c4ConfigZero =
      [c4Frame0, c4Frame1] ∧
    applyGazeCorrection (fun q => q) [c4Frame0, c4Frame1] c4ConfigFull =
      [c4Frame0, c4Frame1].map (fun f =>
        { f with gazeDirection := (calculateGazeToTarget (fun q => q)
            f.leftEye f.rightEye c4ConfigFull.targetPosition) }) :=
  ⟨(c4_strength_endpoints (fun q => q) [c4Frame0, c4Frame1] c4ConfigZero).1 rfl rfl,
   (c4_strength_endpoints (fun q => q) [c4Frame0, c4Frame1] c4ConfigFull).2 rfl rfl⟩

/-! ## C8 -/

/-- The worked example of the specification: one segment whose five words
carry the timestamps Hello(0–0.5), welcome(0.6–1.0), to(1.05–1.15),
the(1.2–1.3), video(1.35–2.0). -/
def c8Segment : TranscriptionSegment :=
  { id := 0, text := "Hello welcome to the video", start := 0, endT := 2,
    words := some [
      { word := "Hello", start := 0, endT := 1/2, confidence := 1 },
      { word := "welcome", start := 3/5, endT := 1, confidence := 1 },
      { word := "to", start := 21/20, endT := 23/20, confidence := 1 },
      { word := "the", start := 6/5, endT := 13/10, confidence := 1 },
      { word := "video", start := 27/20, endT := 2, confidence := 1 }] }

/-- C8 (counterexample): on the worked example with `maxCharsPerLine = 13`
(and the default `maxDuration = 5`) the segmenter does **not** produce the
three claimed entries: `"Hello welcome"` is exactly 13 characters, and the
source's break test is strict (`newText.length > maxCharsPerLine`), so the
first break happens one word later than the claim asserts. -/
theorem c8_example_three_entries_false :
    createSubtitleEntries [c8Segment] 13 5 ≠
      [{ start := 0, endT := 1/2, text := "Hello" },
       { start := 3/5, endT := 13/10, text := "welcome to the" },
       { start := 27/20, endT := 2, text := "video" }] := by
  with_unfolding_all decide

/-- C8 (amended): with the break rule exactly as claimed — a new entry is
started exactly when `len(currentText ++ " " ++ word) > maxCharsPerLine` or
`word.end - entryStart > maxDuration` — the worked example packs into the
**two** entries `{0, 1.0, "Hello welcome"}` and `{1.05, 2.0, "to the
video"}` (the 13-character line `"Hello welcome"` does not exceed the
threshold). -/
theorem c8_example_two_entries :
    createSubtitleEntries [c8Segment] 13 5 =
      [{ start := 0, endT := 1, text := "Hello welcome" },
       { start := 21/20, endT := 2, text := "to the video" }] := by
  with_unfolding_all decide

/-! ## Helper lemmas for sorting and arrangement -/

/-- Fields preserved by the arrangement shift: identity, track, stored
duration, and the extent `endTime - startTime`. -/
theorem shiftClip_fields (trackEnd : ℚ) (c : TimelineClip) :
    (shiftClip trackEnd c).id = c.id ∧
    (shiftClip trackEnd c).trackIndex = c.trackIndex ∧
    (shiftClip trackEnd c).duration = c.duration ∧
    (shiftClip trackEnd c).endTime - (shiftClip trackEnd c).startTime =
      c.endTime - c.startTime := by
  unfold shiftClip
  split
  · refine ⟨rfl, rfl, rfl, ?_⟩
    show c.endTime + (trackEnd - c.startTime) - trackEnd = c.endTime - c.startTime
    ring
  · exact ⟨rfl, rfl, rfl, rfl⟩

/-- The arrangement loop rewrites each clip in place: the output is
pointwise related to the input. -/
theorem processArrange_forall₂ (l : List TimelineClip) :
    ∀ f : ℤ → ℚ, List.Forall₂
      (fun a b => b.id = a.id ∧ b.trackIndex = a.trackIndex ∧
        b.duration = a.duration ∧
        b.endTime - b.startTime = a.endTime - a.startTime) l (processArrange f l) := by
  induction l with
  | nil => intro f; exact List.Forall₂.nil
  | cons c cs ih =>
      intro f
      refine List.Forall₂.cons ?_ (ih _)
      obtain ⟨h1, h2, h3, h4⟩ := shiftClip_fields (f c.trackIndex) c
      exact ⟨h1, h2, h3, h4⟩

/-- Membership extraction from `Forall₂`. -/
theorem forall₂_mem_right {α β : Type} {R : α → β → Prop} {l : List α}
    {m : List β} (h : List.Forall₂ R l m) {b : β} (hb : b ∈ m) :
    ∃ a ∈ l, R a b := by
  induction h with
  | nil => cases hb
  | cons hr hl ih =>
      rcases List.mem_cons.mp hb with hb1 | hb2
      · subst hb1; exact ⟨_, List.mem_cons_self _ _, hr⟩
      · obtain ⟨a, ha, hab⟩ := ih hb2
        exact ⟨a, List.mem_cons_of_mem _ ha, hab⟩

theorem insertByStart_perm (c : TimelineClip) (l : List TimelineClip) :
    List.Perm (insertByStart c l) (c :: l) := by
  induction l with
  | nil => exact List.Perm.refl _
  | cons d ds ih =>
      unfold insertByStart
      split
      · exact List.Perm.refl _
      · exact List.Perm.trans (List.Perm.cons d ih) (List.Perm.swap c d ds)

theorem sortByStart_perm (l : List TimelineClip) :
    List.Perm (sortByStart l) l := by
  induction l with
  | nil => exact List.Perm.refl _
  | cons c cs ih =>
      exact List.Perm.trans (insertByStart_perm c (sortByStart cs)) (List.Perm.cons c ih)

/-- The duration bookkeeping invariant of the specification's data model. -/
def durationInvariant (c : TimelineClip) : Prop :=
  c.duration = c.endTime - c.startTime

/-! ## C7 -/

/-- A creation input supplying an explicit `duration` field inconsistent
with its time range. -/
def c7BadDurData : ClipData :=
  { trackIndex := none, startTime := 0, endTime := 10, duration := some 5,
    type := some "video", sourceAssetId := none, sourceUrl := some "u",
    volume := none, muted := none, zIndex := none }

/-- C7 (counterexample): a `createClip` input that supplies an explicit
`duration` field is stored as-is (`clipData.duration || (endTime -
startTime)`), so the produced clip violates
`duration == endTime - startTime`: here `duration = 5` while
`endTime - startTime = 10`. -/
theorem c7_explicit_duration_escapes :
    (createTimelineClip "c" c7BadDurData).duration = 5 ∧
    (createTimelineClip "c" c7BadDurData).endTime -
      (createTimelineClip "c" c7BadDurData).startTime = 10 ∧
    ((5 : ℚ) ≠ 10) := by
  refine ⟨?_, ?_, ?_⟩ <;> with_unfolding_all decide

/-- C7 (amended): `trim` and `split` establish, `duplicate` and `arrange`
preserve, the invariant `duration == endTime - startTime`; `createClip`
establishes it only when the input supplies no `duration` field (or the
JS-falsy `0`) — an explicit non-zero `duration` is stored unchanged, so for
such inputs the invariant is the caller's responsibility. -/
theorem c7_duration_invariant :
    (∀ (clipId : String) (d : ClipData),
      (d.duration = none ∨ d.duration = some 0) →
      durationInvariant (createTimelineClip clipId d)) ∧
    (∀ (c : TimelineClip) (ns ne : ℚ), durationInvariant (trimClip c ns ne)) ∧
    (∀ (newId : String) (c : TimelineClip) (t : ℚ)
        (p : TimelineClip × TimelineClip), splitClip newId c t = Except.ok p →
      durationInvariant p.1 ∧ durationInvariant p.2) ∧
    (∀ (newId : String) (c : TimelineClip) (offsetTime : Option ℚ),
      durationInvariant c →
      durationInvariant (duplicateTimelineClip newId c offsetTime)) ∧
    (∀ (l : List TimelineClip), (∀ c ∈ l, durationInvariant c) →
      ∀ c' ∈ autoArrangeClips l, durationInvariant c') := by
  refine ⟨?_, ?_, ?_, ?_, ?_⟩
  · intro clipId d hd
    rcases hd with hd | hd <;>
      simp [durationInvariant, createTimelineClip, jsOrQ, hd]
  · intro c ns ne
    show (ne - ns : ℚ) = ne - ns
    rfl
  · intro newId c t p hp
    by_cases hb : t ≤ c.startTime ∨ c.endTime ≤ t
    · simp [splitClip, hb] at hp
    · simp only [splitClip, if_neg hb, Except.ok.injEq] at hp
      subst hp
      constructor
      · show (t - c.startTime : ℚ) = t - c.startTime
        rfl
      · show jsOrQ (some (c.endTime - t)) (c.endTime - t) = c.endTime - t
        unfold jsOrQ
        exact ite_self _
  · intro newId c offsetTime hc
    show jsOrQ (some c.duration)
        ((c.endTime + jsOrQ offsetTime c.duration) -
          (c.startTime + jsOrQ offsetTime c.duration)) =
      (c.endTime + jsOrQ offsetTime c.duration) -
        (c.startTime + jsOrQ offsetTime c.duration)
    simp only [jsOrQ]
    split
    · rfl
    · rw [hc]; ring
  · intro l hl c' hc'
    obtain ⟨a, ha, hid, htr, hdur, hext⟩ :=
      forall₂_mem_right (processArrange_forall₂ (sortByStart l) (fun _ => 0)) hc'
    have hal : a ∈ l := (sortByStart_perm l).mem_iff.mp ha
    show c'.duration = c'.endTime - c'.startTime
    rw [hdur, hext]
    exact hl a hal

/-- Witness for C7's amended theorem: a no-duration creation input, a trim,
a duplicate of a well-formed clip, and the arrangement of a singleton. -/
theorem c7_duration_invariant_witness :
    durationInvariant (createTimelineClip "c" c1BadData) ∧
    durationInvariant (trimClip (exClip "A" 0 0 10) 3 7) ∧
    durationInvariant (duplicateTimelineClip "d" (exClip "A" 0 0 10) none) ∧
    durationInvariant (exClip "A" 0 0 10) :=
  ⟨c7_duration_invariant.1 "c" c1BadData (Or.inl rfl),
   c7_duration_invariant.2.1 (exClip "A" 0 0 10) 3 7,
   c7_duration_invariant.2.2.2.1 "d" (exClip "A" 0 0 10) none rfl,
   c7_duration_invariant.2.2.2.2 [exClip "A" 0 0 10]
     (by intro c hc
         rw [List.mem_singleton.mp hc]
         rfl)
     (exClip "A" 0 0 10) (by with_unfolding_all decide)⟩

/-! ## C10 -/

/-- Indicator of a boolean. -/
def boolIndicator (b : Bool) : ℕ := cond b 1 0

/-- Number of low-confidence episodes (maximal runs of frames with
`confidence < 0.3`), counted by their first frames; `prevLow` records
whether the previous frame was low-confidence. -/
def lowEpisodesAux : List EyeTrackingFrame → Bool → ℕ
  | [], _ => 0
  | f :: rest, prevLow =>
      (if f.confidence < 3/10 then cond prevLow 0 1 else 0) +
        lowEpisodesAux rest (decide (f.confidence < 3/10))

def lowEpisodes (frames : List EyeTrackingFrame) : ℕ := lowEpisodesAux frames false

/-- Whether the sequence ends inside a low-confidence run (confidence of
the last frame below `0.3`; `prev` for the empty tail). -/
def endsLowAux : List EyeTrackingFrame → Bool → Bool
  | [], prev => prev
  | f :: rest, _ => endsLowAux rest (decide (f.confidence < 3/10))

def endsLow (frames : List EyeTrackingFrame) : Bool := endsLowAux frames false

/-- Accounting identity of the blink loop: completed blinks plus the
still-open trailing run (if any) equal the low-confidence episodes plus the
run already open on entry (if any). -/
theorem detectBlinksAux_count (l : List EyeTrackingFrame) :
    ∀ blinkStart : Option ℚ,
      (detectBlinksAux l blinkStart).length +
        boolIndicator (endsLowAux l blinkStart.isSome) =
      lowEpisodesAux l blinkStart.isSome + boolIndicator blinkStart.isSome := by
  induction l with
  | nil =>
      intro blinkStart
      simp [detectBlinksAux, endsLowAux, lowEpisodesAux]
  | cons f rest ih =>
      intro blinkStart
      by_cases hf : f.confidence < 3/10
      · have hd : decide (f.confidence < 3/10) = true := decide_eq_true hf
        cases blinkStart with
        | none =>
            have h1 := ih (some f.timestamp)
            simp only [Option.isSome_some, boolIndicator, Bool.cond_true] at h1
            simp only [Option.isSome_none, detectBlinksAux, if_pos hf,
              endsLowAux, lowEpisodesAux, hd, boolIndicator, Bool.cond_false]
            omega
        | some t =>
            have h1 := ih (some t)
            simp only [Option.isSome_some, boolIndicator, Bool.cond_true] at h1
            simp only [Option.isSome_some, detectBlinksAux, if_pos hf,
              endsLowAux, lowEpisodesAux, hd, boolIndicator, Bool.cond_true]
            omega
      · have hd : decide (f.confidence < 3/10) = false := decide_eq_false hf
        cases blinkStart with
        | none =>
            have h1 := ih none
            simp only [Option.isSome_none, boolIndicator, Bool.cond_false] at h1
            simp only [Option.isSome_none, detectBlinksAux, if_neg hf,
              endsLowAux, lowEpisodesAux, hd, if_neg hf, boolIndicator,
              Bool.cond_false]
            omega
        | some t =>
            have h1 := ih none
            simp only [Option.isSome_none, boolIndicator, Bool.cond_false] at h1
            simp only [Option.isSome_some, detectBlinksAux, if_neg hf,
              endsLowAux, lowEpisodesAux, hd, boolIndicator, Bool.cond_true,
              List.length_cons]
            omega

/-- C10: `detectBlinks` reports only completed blink intervals — the number
of reported intervals plus one for a still-open trailing low-confidence run
equals the number of low-confidence episodes; in particular, when the
confidence drops below `0.3` and never returns to `≥ 0.3` before the frames
end, `blinkCount` of the metrics counts one fewer blink than the number of
low-confidence episodes. -/
theorem c10_trailing_blink_omitted (sqrtFn : ℚ → ℚ)
    (frames : List EyeTrackingFrame) :
    ((detectBlinks frames).length + (if endsLow frames = true then 1 else 0) =
      lowEpisodes frames) ∧
    (endsLow frames = true →
      (calculateEyeContactMetrics sqrtFn frames).blinkCount + 1 =
        lowEpisodes frames) := by
  have hind : ∀ b : Bool, boolIndicator b = if b = true then 1 else 0 := by
    intro b
    cases b <;> rfl
  have h := detectBlinksAux_count frames none
  simp only [Option.isSome_none] at h
  rw [hind, hind] at h
  have h0 : (if (false : Bool) = true then 1 else 0) = 0 := rfl
  rw [h0, Nat.add_zero] at h
  constructor
  · exact h
  · intro hlow
    have hb : (calculateEyeContactMetrics sqrtFn frames).blinkCount =
        (detectBlinks frames).length := rfl
    rw [hb]
    have hlow2 : endsLowAux frames false = true := hlow
    rw [hlow2, if_pos rfl] at h
    exact h

/-- Frames for the C10 witness: two low-confidence episodes, the second of
which is still open when the sequence ends. -/
def c10Frames : List EyeTrackingFrame :=
  [{ timestamp := 0, frameNumber := 0, leftEye := ⟨1, 0, 0⟩, rightEye := ⟨-1, 0, 0⟩,
     gazeDirection := ⟨0, 0, 1⟩, confidence := 1 },
   { timestamp := 1, frameNumber := 1, leftEye := ⟨1, 0, 0⟩, rightEye := ⟨-1, 0, 0⟩,
     gazeDirection := ⟨0, 0, 1⟩, confidence := 1/10 },
   { timestamp := 2, frameNumber := 2, leftEye := ⟨1, 0, 0⟩, rightEye := ⟨-1, 0, 0⟩,
     gazeDirection := ⟨0, 0, 1⟩, confidence := 9/10 },
   { timestamp := 3, frameNumber := 3, leftEye := ⟨1, 0, 0⟩, rightEye := ⟨-1, 0, 0⟩,
     gazeDirection := ⟨0, 0, 1⟩, confidence := 1/20 }]

/-- Witness for C10 on a sequence ending inside a low-confidence run. -/
theorem c10_trailing_blink_omitted_witness :
    (calculateEyeContactMetrics (fun q => q) c10Frames).blinkCount + 1 =
      lowEpisodes c10Frames :=
  (c10_trailing_blink_omitted (fun q => q) c10Frames).2
    (by with_unfolding_all decide)

/-! ## C9 -/

/-- One accumulation step written additively. -/
theorem bumpCell_apply (grid : ℤ → ℤ → ℕ) (frame : EyeTrackingFrame) (y x : ℤ) :
    bumpCell grid frame y x =
      grid y x + (if inGrid frame ∧ y = binY frame ∧ x = binX frame then 1 else 0) := by
  unfold bumpCell
  split
  · rfl
  · rfl

/-- One accumulation step adds `1` to the total for an in-range frame and
`0` for an out-of-range one. -/
theorem gridSum_bumpCell (grid : ℤ → ℤ → ℕ) (frame : EyeTrackingFrame) :
    gridSum (bumpCell grid frame) = gridSum grid + (if inGrid frame then 1 else 0) := by
  have h1 : ∀ y ∈ Finset.Ico (0 : ℤ) (gridSize : ℤ),
      (∑ x ∈ Finset.Ico (0 : ℤ) (gridSize : ℤ), bumpCell grid frame y x) =
      (∑ x ∈ Finset.Ico (0 : ℤ) (gridSize : ℤ), grid y x) +
        ∑ x ∈ Finset.Ico (0 : ℤ) (gridSize : ℤ),
          (if inGrid frame ∧ y = binY frame ∧ x = binX frame then 1 else 0) := by
    intro y _
    rw [← Finset.sum_add_distrib]
    exact Finset.sum_congr rfl (fun x _ => bumpCell_apply grid frame y x)
  have h2 : (∑ y ∈ Finset.Ico (0 : ℤ) (gridSize : ℤ),
        ∑ x ∈ Finset.Ico (0 : ℤ) (gridSize : ℤ),
          (if inGrid frame ∧ y = binY frame ∧ x = binX frame then 1 else 0)) =
      (if inGrid frame then 1 else 0) := by
    by_cases hP : inGrid frame
    · obtain ⟨hx0, hx1, hy0, hy1⟩ := hP
      have hxmem : binX frame ∈ Finset.Ico (0 : ℤ) (gridSize : ℤ) :=
        Finset.mem_Ico.mpr ⟨hx0, hx1⟩
      have hymem : binY frame ∈ Finset.Ico (0 : ℤ) (gridSize : ℤ) :=
        Finset.mem_Ico.mpr ⟨hy0, hy1⟩
      have hstep : ∀ y ∈ Finset.Ico (0 : ℤ) (gridSize : ℤ),
          (∑ x ∈ Finset.Ico (0 : ℤ) (gridSize : ℤ),
            if inGrid frame ∧ y = binY frame ∧ x = binX frame then 1 else 0) =
          if y = binY frame then 1 else 0 := by
        intro y _
        by_cases hy : y = binY frame
        · rw [if_pos hy]
          have hx : ∀ x,
              (if inGrid frame ∧ y = binY frame ∧ x = binX frame then 1 else 0) =
              if x = binX frame then 1 else 0 := by
            intro x
            by_cases hxx : x = binX frame
            · rw [if_pos ⟨⟨hx0, hx1, hy0, hy1⟩, hy, hxx⟩, if_pos hxx]
            · rw [if_neg (by tauto), if_neg hxx]
          rw [Finset.sum_congr rfl (fun x _ => hx x),
            Finset.sum_ite_eq' _ (binX frame) (fun _ => 1), if_pos hxmem]
        · rw [if_neg hy]
          apply Finset.sum_eq_zero
          intro x _
          rw [if_neg (by tauto)]
      rw [Finset.sum_congr rfl hstep,
        Finset.sum_ite_eq' _ (binY frame) (fun _ => 1), if_pos hymem,
        if_pos (show inGrid frame from ⟨hx0, hx1, hy0, hy1⟩)]
    · rw [if_neg hP]
      apply Finset.sum_eq_zero
      intro y _
      apply Finset.sum_eq_zero
      intro x _
      rw [if_neg (by tauto)]
  calc gridSum (bumpCell grid frame)
      = ∑ y ∈ Finset.Ico (0 : ℤ) (gridSize : ℤ),
          ((∑ x ∈ Finset.Ico (0 : ℤ) (gridSize : ℤ), grid y x) +
            ∑ x ∈ Finset.Ico (0 : ℤ) (gridSize : ℤ),
              (if inGrid frame ∧ y = binY frame ∧ x = binX frame then 1 else 0)) :=
        Finset.sum_congr rfl h1
    _ = (∑ y ∈ Finset.Ico (0 : ℤ) (gridSize : ℤ),
          ∑ x ∈ Finset.Ico (0 : ℤ) (gridSize : ℤ), grid y x) +
        ∑ y ∈ Finset.Ico (0 : ℤ) (gridSize : ℤ),
          ∑ x ∈ Finset.Ico (0 : ℤ) (gridSize : ℤ),
            (if inGrid frame ∧ y = binY frame ∧ x = binX frame then 1 else 0) :=
        Finset.sum_add_distrib
    _ = gridSum grid + (if inGrid frame then 1 else 0) := by rw [h2]; rfl

/-- The raw heatmap total counts exactly the in-range frames. -/
theorem gridSum_rawHeatmap (frames : List EyeTrackingFrame) :
    gridSum (rawHeatmap frames) = frames.countP (fun f => decide (inGrid f)) := by
  have key : ∀ (l : List EyeTrackingFrame) (g : ℤ → ℤ → ℕ),
      gridSum (List.foldl bumpCell g l) =
        gridSum g + l.countP (fun f => decide (inGrid f)) := by
    intro l
    induction l with
    | nil => intro g; simp [List.countP_nil]
    | cons f rest ih =>
        intro g
        rw [List.foldl_cons, ih (bumpCell g f), gridSum_bumpCell,
          List.countP_cons]
        by_cases hf : inGrid f
        · rw [if_pos hf, if_pos (decide_eq_true hf)]
          omega
        · rw [if_neg hf, if_neg (by simpa using hf)]
          omega
  have h0 : gridSum (fun _ _ => 0) = 0 := by
    unfold gridSum
    simp
  rw [rawHeatmap, key frames (fun _ _ => 0), h0, Nat.zero_add]

/-- Every in-range cell count is bounded by the grid maximum. -/
theorem cell_le_gridMax (grid : ℤ → ℤ → ℕ) {y x : ℤ}
    (hy0 : 0 ≤ y) (hy1 : y < gridSize) (hx0 : 0 ≤ x) (hx1 : x < gridSize) :
    grid y x ≤ gridMax grid := by
  unfold gridMax
  exact Finset.le_sup (f := fun p : ℤ × ℤ => grid p.1 p.2) (b := (y, x))
    (Finset.mem_product.mpr
      ⟨Finset.mem_Ico.mpr ⟨hy0, hy1⟩, Finset.mem_Ico.mpr ⟨hx0, hx1⟩⟩)

/-- C9: the heatmap bins each frame's `(gazeDirection.x, gazeDirection.y)`
via `floor((v + 1) * gridSize/2)` discarding out-of-range indices; the sum
of the raw pre-normalisation bin counts plus the number of discarded
out-of-range frames equals the number of frames; and after the
normalisation step every in-grid heatmap value lies in `[0, 1]`. -/
theorem c9_heatmap_normalised (frames : List EyeTrackingFrame)
    (width height : ℚ) :
    (gridSum (rawHeatmap frames) +
       frames.countP (fun f => !(decide (inGrid f))) = frames.length) ∧
    (∀ y x : ℤ, 0 ≤ y → y < gridSize → 0 ≤ x → x < gridSize →
      0 ≤ generateGazeHeatmap frames width height y x ∧
      generateGazeHeatmap frames width height y x ≤ 1) := by
  constructor
  · rw [gridSum_rawHeatmap]
    have := List.length_eq_countP_add_countP (fun f => decide (inGrid f))
      (l := frames)
    rw [this]
    congr 1
    apply List.countP_congr
    intro f _
    constructor
    · intro h
      simpa using h
    · intro h
      simpa using h
  · intro y x hy0 hy1 hx0 hx1
    by_cases hm : 0 < gridMax (rawHeatmap frames)
    · have hval : generateGazeHeatmap frames width height y x =
          (rawHeatmap frames y x : ℚ) / (gridMax (rawHeatmap frames) : ℚ) := by
        unfold generateGazeHeatmap
        rw [if_pos hm]
      rw [hval]
      have hmq : (0 : ℚ) < (gridMax (rawHeatmap frames) : ℚ) := by
        exact_mod_cast hm
      constructor
      · apply div_nonneg (by positivity) (le_of_lt hmq)
      · rw [div_le_one hmq]
        exact_mod_cast cell_le_gridMax (rawHeatmap frames) hy0 hy1 hx0 hx1
    · have hval : generateGazeHeatmap frames width height y x =
          (rawHeatmap frames y x : ℚ) := by
        unfold generateGazeHeatmap
        rw [if_neg hm]
      have hzero : rawHeatmap frames y x = 0 := by
        have hle := cell_le_gridMax (rawHeatmap frames) hy0 hy1 hx0 hx1
        omega
      rw [hval, hzero]
      norm_num

/-- Frames for the C9 witness: one frame bins in-grid at `(25, 25)`, the
other (gaze x-component `1`) bins to column `50` and is discarded. -/
def c9Frames : List EyeTrackingFrame :=
  [{ timestamp := 0, frameNumber := 0, leftEye := ⟨1, 0, 0⟩, rightEye := ⟨-1, 0, 0⟩,
     gazeDirection := ⟨0, 0, 1⟩, confidence := 1 },
   { timestamp := 1, frameNumber := 1, leftEye := ⟨1, 0, 0⟩, rightEye := ⟨-1, 0, 0⟩,
     gazeDirection := ⟨1, 0, 0⟩, confidence := 1 }]

/-- Witness for C9 at a concrete two-frame input and the cell `(25, 25)`. -/
theorem c9_heatmap_normalised_witness :
    (gridSum (rawHeatmap c9Frames) +
       c9Frames.countP (fun f => !(decide (inGrid f))) = c9Frames.length) ∧
    (0 ≤ generateGazeHeatmap c9Frames 0 0 25 25 ∧
     generateGazeHeatmap c9Frames 0 0 25 25 ≤ 1) :=
  ⟨(c9_heatmap_normalised c9Frames 0 0).1,
   (c9_heatmap_normalised c9Frames 0 0).2 25 25 (by norm_num)
     (by with_unfolding_all decide) (by norm_num) (by with_unfolding_all decide)⟩

/-! ## Helper lemmas for collision detection -/

/-- The double loop enumerates exactly the ordered sublists of length two. -/
theorem listPairs_mem_iff {α : Type} (a b : α) :
    ∀ l : List α, (a, b) ∈ listPairs l ↔ [a, b].Sublist l := by
  intro l
  induction l with
  | nil =>
      simp only [listPairs, List.not_mem_nil, false_iff]
      intro h
      cases h
  | cons x xs ih =>
      simp only [listPairs, List.mem_append, List.mem_map, Prod.mk.injEq]
      constructor
      · rintro (⟨y, hy, hax, hby⟩ | hmem)
        · subst hax; subst hby
          exact List.Sublist.cons₂ _ (List.singleton_sublist.mpr hy)
        · exact List.Sublist.cons x (ih.mp hmem)
      · intro hsub
        cases hsub with
        | cons _ htail => exact Or.inr (ih.mpr htail)
        | cons₂ _ htail =>
            exact Or.inl ⟨b, List.singleton_sublist.mp htail, rfl, rfl⟩

/-- The group stored for a track, `[]` when the track has no entry. -/
def groupGet (acc : List (ℤ × List TimelineClip)) (t : ℤ) : List TimelineClip :=
  match acc with
  | [] => []
  | (k, g) :: rest => if k = t then g else groupGet rest t

/-- Whether a track has an entry. -/
def hasGroup (acc : List (ℤ × List TimelineClip)) (t : ℤ) : Prop :=
  match acc with
  | [] => False
  | (k, _) :: rest => k = t ∨ hasGroup rest t

theorem groupGet_addToGroups (c : TimelineClip) (t : ℤ) :
    ∀ acc, groupGet (addToGroups acc c) t =
      if c.trackIndex = t then groupGet acc t ++ [c] else groupGet acc t := by
  intro acc
  induction acc with
  | nil =>
      by_cases ht : c.trackIndex = t
      · rw [if_pos ht]
        show (if c.trackIndex = t then [c] else []) = [] ++ [c]
        rw [if_pos ht, List.nil_append]
      · rw [if_neg ht]
        show (if c.trackIndex = t then [c] else []) = []
        rw [if_neg ht]
  | cons kg rest ih =>
      obtain ⟨k, g⟩ := kg
      show groupGet (if k = c.trackIndex then (k, g ++ [c]) :: rest
        else (k, g) :: addToGroups rest c) t = _
      by_cases hk : k = c.trackIndex
      · rw [if_pos hk]
        by_cases ht : k = t
        · have hct : c.trackIndex = t := hk ▸ ht
          show (if k = t then g ++ [c] else groupGet rest t) = _
          rw [if_pos ht, if_pos hct]
          show g ++ [c] = (if k = t then g else groupGet rest t) ++ [c]
          rw [if_pos ht]
        · have hct : ¬ c.trackIndex = t := by rw [← hk]; exact ht
          show (if k = t then g ++ [c] else groupGet rest t) = _
          rw [if_neg ht, if_neg hct]
          show groupGet rest t = groupGet ((k, g) :: rest) t
          show groupGet rest t = if k = t then g else groupGet rest t
          rw [if_neg ht]
      · rw [if_neg hk]
        show (if k = t then g else groupGet (addToGroups rest c) t) = _
        by_cases ht : k = t
        · have hct : ¬ c.trackIndex = t := by
            intro hc
            exact hk (ht ▸ hc.symm ▸ rfl)
          rw [if_pos ht, if_neg hct]
          show g = if k = t then g else groupGet rest t
          rw [if_pos ht]
        · rw [if_neg ht, ih]
          by_cases hct : c.trackIndex = t
          · rw [if_pos hct, if_pos hct]
            show groupGet rest t ++ [c] =
              (if k = t then g else groupGet rest t) ++ [c]
            rw [if_neg ht]
          · rw [if_neg hct, if_neg hct]
            show groupGet rest t = if k = t then g else groupGet rest t
            rw [if_neg ht]

theorem hasGroup_addToGroups (c : TimelineClip) (t : ℤ) :
    ∀ acc, hasGroup (addToGroups acc c) t ↔ hasGroup acc t ∨ c.trackIndex = t := by
  intro acc
  induction acc with
  | nil =>
      show (c.trackIndex = t ∨ False) ↔ False ∨ c.trackIndex = t
      tauto
  | cons kg rest ih =>
      obtain ⟨k, g⟩ := kg
      show hasGroup (if k = c.trackIndex then (k, g ++ [c]) :: rest
        else (k, g) :: addToGroups rest c) t ↔ (k = t ∨ hasGroup rest t) ∨ _
      by_cases hk : k = c.trackIndex
      · rw [if_pos hk]
        show k = t ∨ hasGroup rest t ↔ _
        subst hk
        tauto
      · rw [if_neg hk]
        show k = t ∨ hasGroup (addToGroups rest c) t ↔ _
        rw [ih]
        tauto

/-- Keys of a track-group association list. -/
def groupKeys (acc : List (ℤ × List TimelineClip)) : List ℤ := acc.map Prod.fst

theorem mem_groupKeys_addToGroups (c : TimelineClip) (k : ℤ) :
    ∀ acc, k ∈ groupKeys (addToGroups acc c) →
      k ∈ groupKeys acc ∨ k = c.trackIndex := by
  intro acc
  induction acc with
  | nil =>
      intro h
      rcases List.mem_singleton.mp h with h1
      exact Or.inr h1
  | cons kg rest ih =>
      obtain ⟨k0, g0⟩ := kg
      show k ∈ groupKeys (if k0 = c.trackIndex then (k0, g0 ++ [c]) :: rest
        else (k0, g0) :: addToGroups rest c) → _
      by_cases hk : k0 = c.trackIndex
      · rw [if_pos hk]
        intro h
        exact Or.inl h
      · rw [if_neg hk]
        intro h
        rcases List.mem_cons.mp h with h1 | h2
        · refine Or.inl ?_
          show k ∈ k0 :: groupKeys rest
          rw [h1]
          exact List.mem_cons_self _ _
        · rcases ih h2 with h3 | h3
          · exact Or.inl (List.mem_cons_of_mem _ h3)
          · exact Or.inr h3

theorem groupKeys_nodup_addToGroups (c : TimelineClip) :
    ∀ acc, (groupKeys acc).Nodup → (groupKeys (addToGroups acc c)).Nodup := by
  intro acc
  induction acc with
  | nil =>
      intro _
      exact List.nodup_singleton _
  | cons kg rest ih =>
      obtain ⟨k0, g0⟩ := kg
      intro hnd
      rw [show groupKeys ((k0, g0) :: rest) = k0 :: groupKeys rest from rfl,
        List.nodup_cons] at hnd
      show ((if k0 = c.trackIndex then (k0, g0 ++ [c]) :: rest
        else (k0, g0) :: addToGroups rest c).map Prod.fst).Nodup
      by_cases hk : k0 = c.trackIndex
      · rw [if_pos hk]
        show (k0 :: groupKeys rest).Nodup
        exact List.nodup_cons.mpr hnd
      · rw [if_neg hk]
        show (k0 :: groupKeys (addToGroups rest c)).Nodup
        refine List.nodup_cons.mpr ⟨?_, ih hnd.2⟩
        intro hmem
        rcases mem_groupKeys_addToGroups c k0 rest hmem with h1 | h1
        · exact hnd.1 h1
        · exact hk h1

theorem mem_group_eq_groupGet : ∀ (acc : List (ℤ × List TimelineClip))
    (k : ℤ) (g : List TimelineClip), (groupKeys acc).Nodup →
    (k, g) ∈ acc → g = groupGet acc k := by
  intro acc
  induction acc with
  | nil =>
      intro k g _ h
      cases h
  | cons kg rest ih =>
      obtain ⟨k0, g0⟩ := kg
      intro k g hnd hmem
      rw [show groupKeys ((k0, g0) :: rest) = k0 :: groupKeys rest from rfl,
        List.nodup_cons] at hnd
      rcases List.mem_cons.mp hmem with h1 | h2
      · obtain ⟨hk, hg⟩ := Prod.mk.injEq .. ▸ h1
        show g = if k0 = k then g0 else groupGet rest k
        rw [if_pos (by rw [hk]), ← hg]
      · show g = if k0 = k then g0 else groupGet rest k
        have hk0 : ¬ k0 = k := by
          intro hk
          apply hnd.1
          subst hk
          exact List.mem_map.mpr ⟨(k0, g), h2, rfl⟩
        rw [if_neg hk0]
        exact ih k g hnd.2 h2

theorem hasGroup_mem_groupGet : ∀ (acc : List (ℤ × List TimelineClip)) (k : ℤ),
    hasGroup acc k → (k, groupGet acc k) ∈ acc := by
  intro acc
  induction acc with
  | nil =>
      intro k h
      cases h
  | cons kg rest ih =>
      obtain ⟨k0, g0⟩ := kg
      intro k h
      show (k, if k0 = k then g0 else groupGet rest k) ∈ (k0, g0) :: rest
      by_cases hk : k0 = k
      · rw [if_pos hk, hk]
        exact List.mem_cons_self _ _
      · rw [if_neg hk]
        rcases h with h1 | h2
        · exact absurd h1 hk
        · exact List.mem_cons_of_mem _ (ih k h2)

theorem groupGet_foldl (t : ℤ) : ∀ (l : List TimelineClip)
    (acc : List (ℤ × List TimelineClip)),
    groupGet (l.foldl addToGroups acc) t =
      groupGet acc t ++ l.filter (fun c => decide (c.trackIndex = t)) := by
  intro l
  induction l with
  | nil =>
      intro acc
      rw [List.foldl_nil, List.filter_nil, List.append_nil]
  | cons c cs ih =>
      intro acc
      rw [List.foldl_cons, ih (addToGroups acc c), groupGet_addToGroups,
        List.filter_cons]
      by_cases hc : c.trackIndex = t
      · rw [if_pos hc, if_pos (decide_eq_true hc), List.append_assoc,
          List.singleton_append]
      · rw [if_neg hc, if_neg (by simpa using hc)]

theorem hasGroup_foldl (t : ℤ) : ∀ (l : List TimelineClip)
    (acc : List (ℤ × List TimelineClip)),
    hasGroup (l.foldl addToGroups acc) t ↔
      hasGroup acc t ∨ ∃ c ∈ l, c.trackIndex = t := by
  intro l
  induction l with
  | nil =>
      intro acc
      simp only [List.foldl_nil, List.not_mem_nil]
      tauto
  | cons c cs ih =>
      intro acc
      rw [List.foldl_cons, ih (addToGroups acc c), hasGroup_addToGroups]
      constructor
      · rintro ((h | h) | ⟨d, hd, ht⟩)
        · exact Or.inl h
        · exact Or.inr ⟨c, List.mem_cons_self _ _, h⟩
        · exact Or.inr ⟨d, List.mem_cons_of_mem _ hd, ht⟩
      · rintro (h | ⟨d, hd, ht⟩)
        · exact Or.inl (Or.inl h)
        · rcases List.mem_cons.mp hd with h1 | h1
          · exact Or.inl (Or.inr (h1 ▸ ht))
          · exact Or.inr ⟨d, h1, ht⟩

theorem groupKeys_nodup_trackGroups (l : List TimelineClip) :
    (groupKeys (trackGroups l)).Nodup := by
  have key : ∀ (m : List TimelineClip) (acc : List (ℤ × List TimelineClip)),
      (groupKeys acc).Nodup → (groupKeys (m.foldl addToGroups acc)).Nodup := by
    intro m
    induction m with
    | nil => intro acc h; exact h
    | cons c cs ih =>
        intro acc h
        rw [List.foldl_cons]
        exact ih (addToGroups acc c) (groupKeys_nodup_addToGroups c acc h)
  exact key l [] List.nodup_nil

/-- Every entry of `trackGroups` stores exactly the clips of its track, in
input order. -/
theorem mem_trackGroups_eq_filter (l : List TimelineClip) (k : ℤ)
    (g : List TimelineClip) (h : (k, g) ∈ trackGroups l) :
    g = l.filter (fun c => decide (c.trackIndex = k)) := by
  have h1 := mem_group_eq_groupGet (trackGroups l) k g
    (groupKeys_nodup_trackGroups l) h
  rw [h1]
  have h2 := groupGet_foldl k l []
  rw [show trackGroups l = l.foldl addToGroups [] from rfl, h2]
  rfl

/-- Every occupied track contributes an entry holding its filtered clips. -/
theorem occupied_mem_trackGroups (l : List TimelineClip) (t : ℤ)
    (h : ∃ c ∈ l, c.trackIndex = t) :
    (t, l.filter (fun c => decide (c.trackIndex = t))) ∈ trackGroups l := by
  have hg : hasGroup (trackGroups l) t :=
    (hasGroup_foldl t l []).mpr (Or.inr h)
  have hmem := hasGroup_mem_groupGet (trackGroups l) t hg
  have h2 := groupGet_foldl t l []
  rw [show trackGroups l = l.foldl addToGroups [] from rfl] at hmem ⊢
  rw [h2] at hmem
  exact hmem

/-- Inversion of the inner-loop body. -/
theorem collisionOfPair_eq_some (p : TimelineClip × TimelineClip)
    (col : ClipCollision) :
    collisionOfPair p = some col ↔
      (max p.1.startTime p.2.startTime < min p.1.endTime p.2.endTime ∧
       col = ⟨p.1, p.2, max p.1.startTime p.2.startTime,
         min p.1.endTime p.2.endTime⟩) := by
  rw [show collisionOfPair p =
      (if max p.1.startTime p.2.startTime < min p.1.endTime p.2.endTime then
        some ⟨p.1, p.2, max p.1.startTime p.2.startTime,
          min p.1.endTime p.2.endTime⟩
      else none) from rfl]
  split
  · next h =>
      simp only [Option.some.injEq]
      constructor
      · intro he
        exact ⟨h, he.symm⟩
      · rintro ⟨_, he⟩
        exact he.symm
  · next h =>
      simp only [reduceCtorEq, false_iff, not_and]
      intro hover
      exact absurd hover h

/-- Membership characterisation of `detectClipCollisions`: a record is
reported iff it is the overlap record of two clips appearing in order in
the input, on the same track, with strictly positive overlap. -/
theorem mem_detectClipCollisions_iff (l : List TimelineClip)
    (col : ClipCollision) :
    col ∈ detectClipCollisions l ↔
      ∃ a b : TimelineClip, [a, b].Sublist l ∧ a.trackIndex = b.trackIndex ∧
        max a.startTime b.startTime < min a.endTime b.endTime ∧
        col = ⟨a, b, max a.startTime b.startTime,
          min a.endTime b.endTime⟩ := by
  unfold detectClipCollisions
  rw [List.mem_flatMap]
  constructor
  · rintro ⟨⟨k, g⟩, hkg, hcol⟩
    obtain ⟨p, hp, hsome⟩ := List.mem_filterMap.mp hcol
    obtain ⟨a, b⟩ := p
    obtain ⟨hover, hcoleq⟩ := (collisionOfPair_eq_some (a, b) col).mp hsome
    have hg := mem_trackGroups_eq_filter l k g hkg
    subst hg
    have hsubf : [a, b].Sublist
        (l.filter (fun c => decide (c.trackIndex = k))) :=
      (listPairs_mem_iff a b _).mp hp
    have hsubl : [a, b].Sublist l := hsubf.trans (List.filter_sublist l)
    have hamem : a ∈ l.filter (fun c => decide (c.trackIndex = k)) :=
      hsubf.subset (List.mem_cons_self _ _)
    have hbmem : b ∈ l.filter (fun c => decide (c.trackIndex = k)) :=
      hsubf.subset (List.mem_cons_of_mem _ (List.mem_cons_self _ _))
    have ha : a.trackIndex = k := by
      have := (List.mem_filter.mp hamem).2
      simpa using this
    have hb : b.trackIndex = k := by
      have := (List.mem_filter.mp hbmem).2
      simpa using this
    exact ⟨a, b, hsubl, by rw [ha, hb], hover, hcoleq⟩
  · rintro ⟨a, b, hsub, htrack, hover, hcoleq⟩
    refine ⟨(a.trackIndex,
      l.filter (fun c => decide (c.trackIndex = a.trackIndex))), ?_, ?_⟩
    · exact occupied_mem_trackGroups l a.trackIndex
        ⟨a, hsub.subset (List.mem_cons_self _ _), rfl⟩
    · apply List.mem_filterMap.mpr
      refine ⟨(a, b), ?_, ?_⟩
      · apply (listPairs_mem_iff a b _).mpr
        have hfilter : [a, b].filter
            (fun c => decide (c.trackIndex = a.trackIndex)) = [a, b] := by
          rw [List.filter_cons, if_pos (by simp), List.filter_cons,
            if_pos (by simp [← htrack]), List.filter_nil]
        rw [← hfilter]
        exact List.Sublist.filter _ hsub
      · exact (collisionOfPair_eq_some (a, b) col).mpr ⟨hover, hcoleq⟩

/-! ## C6 -/

/-- C6: `detectCollisions` reports a pair `(a, b)` (in input order) iff the
two clips share a track and `max(s1,s2) < min(e1,e2)`; every reported
record carries `overlapStart = max` and `overlapEnd = min` of its two
clips, values symmetric under swapping the pair; and clips touching at a
single instant are never reported. -/
theorem c6_collision_characterisation (l : List TimelineClip)
    (a b : TimelineClip) :
    ((∃ col ∈ detectClipCollisions l, col.clip1 = a ∧ col.clip2 = b) ↔
      (a.trackIndex = b.trackIndex ∧ [a, b].Sublist l ∧
        max a.startTime b.startTime < min a.endTime b.endTime)) ∧
    (∀ col ∈ detectClipCollisions l,
      col.overlapStart = max col.clip1.startTime col.clip2.startTime ∧
      col.overlapEnd = min col.clip1.endTime col.clip2.endTime ∧
      col.overlapStart = max col.clip2.startTime col.clip1.startTime ∧
      col.overlapEnd = min col.clip2.endTime col.clip1.endTime ∧
      col.clip1.trackIndex = col.clip2.trackIndex ∧
      col.overlapStart < col.overlapEnd ∧
      col.clip1.endTime ≠ col.clip2.startTime ∧
      col.clip2.endTime ≠ col.clip1.startTime) := by
  constructor
  · constructor
    · rintro ⟨col, hmem, h1, h2⟩
      obtain ⟨a', b', hsub, htrack, hover, hcoleq⟩ :=
        (mem_detectClipCollisions_iff l col).mp hmem
      have ha : a' = a := by rw [← h1, hcoleq]
      have hb : b' = b := by rw [← h2, hcoleq]
      subst ha; subst hb
      exact ⟨htrack, hsub, hover⟩
    · rintro ⟨htrack, hsub, hover⟩
      exact ⟨⟨a, b, max a.startTime b.startTime, min a.endTime b.endTime⟩,
        (mem_detectClipCollisions_iff l _).mpr
          ⟨a, b, hsub, htrack, hover, rfl⟩, rfl, rfl⟩
  · intro col hmem
    obtain ⟨a', b', hsub, htrack, hover, hcoleq⟩ :=
      (mem_detectClipCollisions_iff l col).mp hmem
    subst hcoleq
    refine ⟨rfl, rfl, max_comm _ _, min_comm _ _, htrack, hover, ?_, ?_⟩
    · intro he
      have h1 : min a'.endTime b'.endTime ≤ b'.startTime := by
        rw [← he]
        exact min_le_left _ _
      have h2 : b'.startTime ≤ max a'.startTime b'.startTime :=
        le_max_right _ _
      exact absurd hover (not_lt.mpr (h1.trans h2))
    · intro he
      have h1 : min a'.endTime b'.endTime ≤ a'.startTime := by
        rw [← he]
        exact min_le_right _ _
      have h2 : a'.startTime ≤ max a'.startTime b'.startTime :=
        le_max_left _ _
      exact absurd hover (not_lt.mpr (h1.trans h2))

/-- Witness for C6: the spec's own example pair — two track-0 clips 0–10
and 5–15 — is reported, and the record found in the concrete output
satisfies all the symmetric overlap properties. -/
theorem c6_collision_characterisation_witness :
    (∃ col ∈ detectClipCollisions [exClip "A" 0 0 10, exClip "B" 0 5 15],
      col.clip1 = exClip "A" 0 0 10 ∧ col.clip2 = exClip "B" 0 5 15) ∧
    ((⟨exClip "A" 0 0 10, exClip "B" 0 5 15, 5, 10⟩ :
        ClipCollision).overlapStart =
      max (exClip "A" 0 0 10).startTime (exClip "B" 0 5 15).startTime ∧
     (⟨exClip "A" 0 0 10, exClip "B" 0 5 15, 5, 10⟩ :
        ClipCollision).overlapEnd =
      min (exClip "A" 0 0 10).endTime (exClip "B" 0 5 15).endTime) := by
  constructor
  · exact (c6_collision_characterisation
      [exClip "A" 0 0 10, exClip "B" 0 5 15]
      (exClip "A" 0 0 10) (exClip "B" 0 5 15)).1.mpr
      ⟨rfl, List.Sublist.refl _, by with_unfolding_all decide⟩
  · have h := (c6_collision_characterisation
      [exClip "A" 0 0 10, exClip "B" 0 5 15]
      (exClip "A" 0 0 10) (exClip "B" 0 5 15)).2
      ⟨exClip "A" 0 0 10, exClip "B" 0 5 15, 5, 10⟩
      (by with_unfolding_all decide)
    exact ⟨h.1, h.2.1⟩

/-! ## Helper lemmas for auto-arrangement (C5) -/

/-- The arrangement loop restricted to a single track: the cursor is the
end time of the previously processed clip of that track. -/
def processTrack (cur : ℚ) : List TimelineClip → List TimelineClip
  | [] => []
  | c :: cs => shiftClip cur c :: processTrack (shiftClip cur c).endTime cs

theorem shiftClip_trackIndex (cur : ℚ) (c : TimelineClip) :
    (shiftClip cur c).trackIndex = c.trackIndex :=
  (shiftClip_fields cur c).2.1

/-- The arrangement loop treats tracks independently: filtering its output
to one track is running the single-cursor loop on the filtered input. -/
theorem processArrange_filter (t : ℤ) : ∀ (l : List TimelineClip) (f : ℤ → ℚ),
    (processArrange f l).filter (fun c => decide (c.trackIndex = t)) =
      processTrack (f t) (l.filter (fun c => decide (c.trackIndex = t))) := by
  intro l
  induction l with
  | nil => intro f; rfl
  | cons c cs ih =>
      intro f
      rw [show processArrange f (c :: cs) =
        shiftClip (f c.trackIndex) c ::
          processArrange (Function.update f c.trackIndex
            (shiftClip (f c.trackIndex) c).endTime) cs from rfl]
      rw [List.filter_cons, List.filter_cons]
      by_cases hc : c.trackIndex = t
      · rw [if_pos (by simp [shiftClip_trackIndex, hc]),
          if_pos (by simp [hc]), ih]
        rw [show processTrack (f t) (c :: cs.filter (fun c => decide (c.trackIndex = t))) =
          shiftClip (f t) c :: processTrack (shiftClip (f t) c).endTime
            (cs.filter (fun c => decide (c.trackIndex = t))) from rfl]
        rw [← hc]
        congr 1
        rw [hc, Function.update_same]
      · rw [if_neg (by simp [shiftClip_trackIndex, hc]),
          if_neg (by simp [hc]), ih]
        congr 1
        exact Function.update_noteq (fun h => hc h.symm) _ _

/-- The single-track loop produces a cursor-chained list. -/
def Chained : ℚ → List TimelineClip → Prop
  | _, [] => True
  | cur, c :: cs => cur ≤ c.startTime ∧ Chained c.endTime cs

theorem chained_processTrack : ∀ (l : List TimelineClip) (cur : ℚ),
    Chained cur (processTrack cur l) := by
  intro l
  induction l with
  | nil => intro cur; trivial
  | cons c cs ih =>
      intro cur
      refine ⟨?_, ih (shiftClip cur c).endTime⟩
      unfold shiftClip
      split
      · exact le_refl cur
      · next h => exact le_of_not_lt h

/-- A chained list is left untouched by the single-track loop. -/
theorem processTrack_of_chained : ∀ (l : List TimelineClip) (cur : ℚ),
    Chained cur l → processTrack cur l = l := by
  intro l
  induction l with
  | nil => intro cur _; rfl
  | cons c cs ih =>
      intro cur h
      obtain ⟨h1, h2⟩ := h
      have hs : shiftClip cur c = c := by
        unfold shiftClip
        rw [if_neg (not_lt.mpr h1)]
      rw [show processTrack cur (c :: cs) =
        shiftClip cur c :: processTrack (shiftClip cur c).endTime cs from rfl,
        hs, ih c.endTime h2]

/-- If every track's filtered sublist is chained at its cursor, the whole
arrangement loop is the identity. -/
theorem processArrange_of_chained : ∀ (l : List TimelineClip) (f : ℤ → ℚ),
    (∀ t, Chained (f t) (l.filter (fun c => decide (c.trackIndex = t)))) →
    processArrange f l = l := by
  intro l
  induction l with
  | nil => intro f _; rfl
  | cons c cs ih =>
      intro f h
      have hc := h c.trackIndex
      rw [List.filter_cons, if_pos (by simp)] at hc
      obtain ⟨h1, h2⟩ := hc
      have hs : shiftClip (f c.trackIndex) c = c := by
        unfold shiftClip
        rw [if_neg (not_lt.mpr h1)]
      rw [show processArrange f (c :: cs) =
        shiftClip (f c.trackIndex) c ::
          processArrange (Function.update f c.trackIndex
            (shiftClip (f c.trackIndex) c).endTime) cs from rfl, hs]
      congr 1
      apply ih
      intro t
      by_cases ht : t = c.trackIndex
      · subst ht
        rw [Function.update_same]
        exact h2
      · rw [Function.update_noteq ht]
        have := h t
        rw [List.filter_cons, if_neg (by simp; intro hh; exact ht hh.symm)] at this
        exact this

/-- Pointwise relation between input and output of the single-track loop. -/
theorem processTrack_forall₂ : ∀ (l : List TimelineClip) (cur : ℚ),
    List.Forall₂
      (fun a b => b.id = a.id ∧ b.trackIndex = a.trackIndex ∧
        b.duration = a.duration ∧
        b.endTime - b.startTime = a.endTime - a.startTime) l (processTrack cur l) := by
  intro l
  induction l with
  | nil => intro cur; exact List.Forall₂.nil
  | cons c cs ih =>
      intro cur
      exact List.Forall₂.cons (shiftClip_fields cur c) (ih _)

theorem chained_le_start : ∀ (l : List TimelineClip) (cur : ℚ),
    Chained cur l → (∀ c ∈ l, c.startTime ≤ c.endTime) →
    ∀ c ∈ l, cur ≤ c.startTime := by
  intro l
  induction l with
  | nil => intro cur _ _ c hc; cases hc
  | cons d ds ih =>
      intro cur h hdur c hc
      obtain ⟨h1, h2⟩ := h
      rcases List.mem_cons.mp hc with hc1 | hc2
      · subst hc1; exact h1
      · have hd : d.startTime ≤ d.endTime := hdur d (List.mem_cons_self _ _)
        have := ih d.endTime h2 (fun x hx => hdur x (List.mem_cons_of_mem _ hx)) c hc2
        exact le_trans (le_trans h1 hd) this

/-- A chained list (with non-negative extents) is separated: every earlier
clip ends no later than every later clip starts. -/
theorem chained_pairwise_sep : ∀ (l : List TimelineClip) (cur : ℚ),
    Chained cur l → (∀ c ∈ l, c.startTime ≤ c.endTime) →
    l.Pairwise (fun c d => c.endTime ≤ d.startTime) := by
  intro l
  induction l with
  | nil => intro _ _ _; exact List.Pairwise.nil
  | cons d ds ih =>
      intro cur h hdur
      obtain ⟨h1, h2⟩ := h
      refine List.Pairwise.cons ?_
        (ih d.endTime h2 (fun x hx => hdur x (List.mem_cons_of_mem _ hx)))
      intro x hx
      exact chained_le_start ds d.endTime h2
        (fun y hy => hdur y (List.mem_cons_of_mem _ hy)) x hx

theorem chained_of_pairwise : ∀ (l : List TimelineClip) (cur : ℚ),
    (∀ c ∈ l, cur ≤ c.startTime) →
    l.Pairwise (fun c d => c.endTime ≤ d.startTime) → Chained cur l := by
  intro l
  induction l with
  | nil => intro _ _ _; trivial
  | cons d ds ih =>
      intro cur hle hp
      refine ⟨hle d (List.mem_cons_self _ _), ?_⟩
      exact ih d.endTime (fun x hx => (List.pairwise_cons.mp hp).1 x hx)
        (List.pairwise_cons.mp hp).2

/-- Separation plus non-negative extents gives sortedness by start time. -/
theorem pairwise_le_of_sep : ∀ l : List TimelineClip,
    l.Pairwise (fun c d => c.endTime ≤ d.startTime) →
    (∀ c ∈ l, c.startTime ≤ c.endTime) →
    l.Pairwise (fun c d => c.startTime ≤ d.startTime) := by
  intro l hsep hdur
  rw [List.pairwise_iff_forall_sublist] at hsep ⊢
  intro a b hsub
  have ha : a ∈ l := hsub.subset (List.mem_cons_self _ _)
  exact le_trans (hdur a ha) (hsep hsub)

theorem mem_insertByStart {x c : TimelineClip} : ∀ {l : List TimelineClip},
    x ∈ insertByStart c l → x = c ∨ x ∈ l := by
  intro l hx
  rcases (insertByStart_perm c l).mem_iff.mp hx with h
  exact List.mem_cons.mp h

theorem insertByStart_pairwise (c : TimelineClip) :
    ∀ l : List TimelineClip,
      l.Pairwise (fun a b => a.startTime ≤ b.startTime) →
      (insertByStart c l).Pairwise (fun a b => a.startTime ≤ b.startTime) := by
  intro l
  induction l with
  | nil => intro _; exact List.pairwise_singleton _ _
  | cons d ds ih =>
      intro h
      obtain ⟨hd, hds⟩ := List.pairwise_cons.mp h
      unfold insertByStart
      split
      · next hcd =>
          refine List.Pairwise.cons ?_ h
          intro x hx
          rcases List.mem_cons.mp hx with h1 | h2
          · subst h1; exact hcd
          · exact le_trans hcd (hd x h2)
      · next hcd =>
          refine List.Pairwise.cons ?_ (ih hds)
          intro x hx
          rcases mem_insertByStart hx with h1 | h2
          · subst h1; exact le_of_lt (lt_of_not_le hcd)
          · exact hd x h2

theorem sortByStart_pairwise : ∀ l : List TimelineClip,
    (sortByStart l).Pairwise (fun a b => a.startTime ≤ b.startTime) := by
  intro l
  induction l with
  | nil => exact List.Pairwise.nil
  | cons c cs ih => exact insertByStart_pairwise c (sortByStart cs) ih

theorem insertByStart_front (c : TimelineClip) :
    ∀ l : List TimelineClip, (∀ d ∈ l, c.startTime ≤ d.startTime) →
      insertByStart c l = c :: l := by
  intro l h
  cases l with
  | nil => rfl
  | cons d ds =>
      unfold insertByStart
      rw [if_pos (h d (List.mem_cons_self _ _))]

theorem sortByStart_of_pairwise : ∀ l : List TimelineClip,
    l.Pairwise (fun a b => a.startTime ≤ b.startTime) → sortByStart l = l := by
  intro l
  induction l with
  | nil => intro _; rfl
  | cons c cs ih =>
      intro h
      obtain ⟨hc, hcs⟩ := List.pairwise_cons.mp h
      show insertByStart c (sortByStart cs) = c :: cs
      rw [ih hcs, insertByStart_front c cs hc]

theorem insertByStart_cons (c d : TimelineClip) (ds : List TimelineClip) :
    insertByStart c (d :: ds) =
      if c.startTime ≤ d.startTime then c :: d :: ds
      else d :: insertByStart c ds := rfl

theorem insertByStart_filter (c : TimelineClip) (p : TimelineClip → Bool) :
    ∀ l : List TimelineClip,
      l.Pairwise (fun a b => a.startTime ≤ b.startTime) →
      (insertByStart c l).filter p =
        if p c then insertByStart c (l.filter p) else l.filter p := by
  intro l
  induction l with
  | nil =>
      intro _
      rw [show insertByStart c [] = [c] from rfl, List.filter_cons,
        List.filter_nil]
      by_cases hp : p c
      · rw [if_pos hp, if_pos hp, show insertByStart c [] = [c] from rfl]
      · rw [if_neg hp, if_neg hp]
  | cons d ds ih =>
      intro h
      obtain ⟨hd, hds⟩ := List.pairwise_cons.mp h
      rw [insertByStart_cons]
      by_cases hcd : c.startTime ≤ d.startTime
      · rw [if_pos hcd, List.filter_cons]
        by_cases hp : p c
        · rw [if_pos hp, if_pos hp]
          have hall : ∀ x ∈ (d :: ds).filter p, c.startTime ≤ x.startTime := by
            intro x hx
            have hx2 := List.mem_of_mem_filter hx
            rcases List.mem_cons.mp hx2 with h1 | h2
            · subst h1; exact hcd
            · exact le_trans hcd (hd x h2)
          rw [insertByStart_front c _ hall]
        · rw [if_neg hp, if_neg hp]
      · rw [if_neg hcd, List.filter_cons, ih hds]
        by_cases hpd : p d
        · rw [if_pos hpd]
          by_cases hp : p c
          · rw [if_pos hp, if_pos hp, List.filter_cons, if_pos hpd,
              insertByStart_cons, if_neg hcd]
          · rw [if_neg hp, if_neg hp, List.filter_cons, if_pos hpd]
        · rw [if_neg hpd]
          by_cases hp : p c
          · rw [if_pos hp, if_pos hp, List.filter_cons, if_neg hpd]
          · rw [if_neg hp, if_neg hp, List.filter_cons, if_neg hpd]

theorem sortByStart_filter (p : TimelineClip → Bool) :
    ∀ l : List TimelineClip,
      (sortByStart l).filter p = sortByStart (l.filter p) := by
  intro l
  induction l with
  | nil => rfl
  | cons c cs ih =>
      show (insertByStart c (sortByStart cs)).filter p = sortByStart ((c :: cs).filter p)
      rw [insertByStart_filter c p (sortByStart cs) (sortByStart_pairwise cs), ih,
        List.filter_cons]
      by_cases hp : p c
      · rw [if_pos hp, if_pos hp]
        rfl
      · rw [if_neg hp, if_neg hp]

theorem pair_sublist_of_mem {a b : TimelineClip} (hne : a ≠ b) :
    ∀ l : List TimelineClip, a ∈ l → b ∈ l →
      [a, b].Sublist l ∨ [b, a].Sublist l := by
  intro l
  induction l with
  | nil => intro ha _; cases ha
  | cons h t ih =>
      intro ha hb
      by_cases hah : a = h
      · subst hah
        have hbt : b ∈ t := by
          rcases List.mem_cons.mp hb with h1 | h2
          · exact absurd h1.symm hne
          · exact h2
        exact Or.inl (List.Sublist.cons₂ _ (List.singleton_sublist.mpr hbt))
      · by_cases hbh : b = h
        · subst hbh
          have hat : a ∈ t := by
            rcases List.mem_cons.mp ha with h1 | h2
            · exact absurd h1 hah
            · exact h2
          exact Or.inr (List.Sublist.cons₂ _ (List.singleton_sublist.mpr hat))
        · have hat : a ∈ t := by
            rcases List.mem_cons.mp ha with h1 | h2
            · exact absurd h1 hah
            · exact h2
          have hbt : b ∈ t := by
            rcases List.mem_cons.mp hb with h1 | h2
            · exact absurd h1 hbh
            · exact h2
          rcases ih hat hbt with h1 | h1
          · exact Or.inl (List.Sublist.cons _ h1)
          · exact Or.inr (List.Sublist.cons _ h1)

/-- An ordered pair drawn from a permutation of `l` appears in `l` in one
of the two orders. -/
theorem pair_sublist_perm {m l : List TimelineClip} (hperm : m.Perm l)
    {a b : TimelineClip} (hsub : [a, b].Sublist m) :
    [a, b].Sublist l ∨ [b, a].Sublist l := by
  by_cases hab : a = b
  · subst hab
    have h2 : 2 ≤ m.count a := List.le_count_iff_replicate_sublist.mpr hsub
    rw [hperm.count_eq] at h2
    exact Or.inl (List.le_count_iff_replicate_sublist.mp h2)
  · exact pair_sublist_of_mem hab l
      (hperm.mem_iff.mp (hsub.subset (List.mem_cons_self _ _)))
      (hperm.mem_iff.mp (hsub.subset (List.mem_cons_of_mem _ (List.mem_cons_self _ _))))

theorem arrange_filter_eq (l : List TimelineClip) (t : ℤ) :
    (autoArrangeClips l).filter (fun c => decide (c.trackIndex = t)) =
      processTrack 0 ((sortByStart l).filter (fun c => decide (c.trackIndex = t))) :=
  processArrange_filter t (sortByStart l) (fun _ => 0)

/-- Every arranged clip has the extent of some input clip. -/
theorem arrange_mem_extent (l : List TimelineClip)
    (h2 : ∀ c ∈ l, c.startTime ≤ c.endTime) :
    ∀ c' ∈ autoArrangeClips l, c'.startTime ≤ c'.endTime := by
  intro c' hc'
  obtain ⟨a, ha, _, _, _, hext⟩ :=
    forall₂_mem_right (processArrange_forall₂ (sortByStart l) (fun _ => 0)) hc'
  have hal : a ∈ l := (sortByStart_perm l).mem_iff.mp ha
  have := h2 a hal
  have h3 : (0 : ℚ) ≤ c'.endTime - c'.startTime := by
    rw [hext]
    linarith
  linarith

/-- Clips of the processed single-track list also have non-negative
extents, provided the filtered input does. -/
theorem processTrack_mem_extent (m : List TimelineClip) (cur : ℚ)
    (h2 : ∀ c ∈ m, c.startTime ≤ c.endTime) :
    ∀ c' ∈ processTrack cur m, c'.startTime ≤ c'.endTime := by
  intro c' hc'
  obtain ⟨a, ha, _, _, _, hext⟩ :=
    forall₂_mem_right (processTrack_forall₂ m cur) hc'
  have := h2 a ha
  have h3 : (0 : ℚ) ≤ c'.endTime - c'.startTime := by
    rw [hext]
    linarith
  linarith

/-- The arranged clips of one track are separated. -/
theorem arrange_filter_sep (l : List TimelineClip)
    (h2 : ∀ c ∈ l, c.startTime ≤ c.endTime) (t : ℤ) :
    ((autoArrangeClips l).filter (fun c => decide (c.trackIndex = t))).Pairwise
      (fun c d => c.endTime ≤ d.startTime) := by
  rw [arrange_filter_eq]
  apply chained_pairwise_sep _ 0 (chained_processTrack _ 0)
  apply processTrack_mem_extent
  intro c hc
  exact h2 c ((sortByStart_perm l).mem_iff.mp (List.mem_of_mem_filter hc))

/-- The arranged result has no collisions. -/
theorem arrange_no_collisions (l : List TimelineClip)
    (h2 : ∀ c ∈ l, c.startTime ≤ c.endTime) :
    detectClipCollisions (autoArrangeClips l) = [] := by
  rw [List.eq_nil_iff_forall_not_mem]
  intro col hmem
  obtain ⟨a, b, hsub, ht, hover, _⟩ :=
    (mem_detectClipCollisions_iff _ col).mp hmem
  have hfab : [a, b].filter (fun c => decide (c.trackIndex = a.trackIndex)) =
      [a, b] := by
    rw [List.filter_cons, if_pos (by simp), List.filter_cons,
      if_pos (by simp [← ht]), List.filter_nil]
  have hsubf : [a, b].Sublist
      ((autoArrangeClips l).filter (fun c => decide (c.trackIndex = a.trackIndex))) := by
    rw [← hfab]
    exact List.Sublist.filter _ hsub
  have hsep := arrange_filter_sep l h2 a.trackIndex
  have hab : a.endTime ≤ b.startTime :=
    (List.pairwise_iff_forall_sublist.mp hsep) hsubf
  have : min a.endTime b.endTime ≤ max a.startTime b.startTime :=
    le_trans (min_le_left _ _) (le_trans hab (le_max_right _ _))
  exact absurd hover (not_lt.mpr this)

/-- Re-arranging an arranged collection only re-sorts it. -/
theorem arrange_arrange_eq_sort (l : List TimelineClip)
    (h2 : ∀ c ∈ l, c.startTime ≤ c.endTime) :
    autoArrangeClips (autoArrangeClips l) = sortByStart (autoArrangeClips l) := by
  show processArrange (fun _ => 0) (sortByStart (autoArrangeClips l)) = _
  apply processArrange_of_chained
  intro t
  rw [sortByStart_filter, arrange_filter_eq]
  have hdur : ∀ c ∈ processTrack 0
      ((sortByStart l).filter (fun c => decide (c.trackIndex = t))),
      c.startTime ≤ c.endTime := by
    apply processTrack_mem_extent
    intro c hc
    exact h2 c ((sortByStart_perm l).mem_iff.mp (List.mem_of_mem_filter hc))
  have hch := chained_processTrack
    ((sortByStart l).filter (fun c => decide (c.trackIndex = t))) 0
  have hsep := chained_pairwise_sep _ 0 hch hdur
  have hle := pairwise_le_of_sep _ hsep hdur
  rw [sortByStart_of_pairwise _ hle]
  exact hch

/-- A collision-free collection with non-negative start times is only
re-sorted by the arrangement, every clip untouched. -/
theorem arrange_of_no_collisions (l : List TimelineClip)
    (h0 : ∀ c ∈ l, 0 ≤ c.startTime) (h2 : ∀ c ∈ l, c.startTime < c.endTime)
    (hnc : detectClipCollisions l = []) :
    autoArrangeClips l = sortByStart l := by
  rw [List.eq_nil_iff_forall_not_mem] at hnc
  show processArrange (fun _ => 0) (sortByStart l) = sortByStart l
  apply processArrange_of_chained
  intro t
  rw [sortByStart_filter]
  apply chained_of_pairwise
  · intro c hc
    exact h0 c (List.mem_of_mem_filter
      ((sortByStart_perm _).mem_iff.mp hc))
  · rw [List.pairwise_iff_forall_sublist]
    intro a b hsub
    have hle : a.startTime ≤ b.startTime :=
      (List.pairwise_iff_forall_sublist.mp (sortByStart_pairwise _)) hsub
    have horder := pair_sublist_perm
      (sortByStart_perm (l.filter (fun c => decide (c.trackIndex = t)))) hsub
    have hbl : b ∈ l := by
      rcases horder with hor | hor
      · exact List.mem_of_mem_filter (hor.subset
          (List.mem_cons_of_mem _ (List.mem_cons_self _ _)))
      · exact List.mem_of_mem_filter (hor.subset (List.mem_cons_self _ _))
    have hta : a.trackIndex = t := by
      rcases horder with hor | hor
      · have := (List.mem_filter.mp (hor.subset (List.mem_cons_self _ _))).2
        simpa using this
      · have := (List.mem_filter.mp (hor.subset
          (List.mem_cons_of_mem _ (List.mem_cons_self _ _)))).2
        simpa using this
    have htb : b.trackIndex = t := by
      rcases horder with hor | hor
      · have := (List.mem_filter.mp (hor.subset
          (List.mem_cons_of_mem _ (List.mem_cons_self _ _)))).2
        simpa using this
      · have := (List.mem_filter.mp (hor.subset (List.mem_cons_self _ _))).2
        simpa using this
    have hno : ¬ max a.startTime b.startTime < min a.endTime b.endTime := by
      intro hover
      rcases horder with hor | hor
      · exact hnc _ ((mem_detectClipCollisions_iff l
          ⟨a, b, max a.startTime b.startTime, min a.endTime b.endTime⟩).mpr
          ⟨a, b, hor.trans (List.filter_sublist l), by rw [hta, htb],
            hover, rfl⟩)
      · exact hnc _ ((mem_detectClipCollisions_iff l
          ⟨b, a, max b.startTime a.startTime, min b.endTime a.endTime⟩).mpr
          ⟨b, a, hor.trans (List.filter_sublist l), by rw [hta, htb],
            by rw [max_comm, min_comm]; exact hover, rfl⟩)
    have hmin : min a.endTime b.endTime ≤ b.startTime := by
      have := not_lt.mp hno
      rwa [max_eq_right hle] at this
    rcases le_or_lt a.endTime b.endTime with hcase | hcase
    · rwa [min_eq_left hcase] at hmin
    · rw [min_eq_right (le_of_lt hcase)] at hmin
      exact absurd (lt_of_lt_of_le (h2 b hbl) hmin) (lt_irrefl _)

/-! ## C5 -/

/-- C5 (counterexample): `autoArrange` is **not** idempotent as a
list-valued operation.  On three well-formed clips — A (track 0, 0–10),
B (track 0, 1–2), C (track 1, 2–3) — the first arrangement shifts B to
10–11 and returns `[A, B', C]` (ordered by the *original* start times),
while arranging again re-sorts by the *new* start times and returns
`[A, C, B']`: a different list (same clips, different order). -/
theorem c5_not_list_idempotent :
    autoArrangeClips (autoArrangeClips
      [exClip "A" 0 0 10, exClip "B" 0 1 2, exClip "C" 1 2 3]) ≠
    autoArrangeClips [exClip "A" 0 0 10, exClip "B" 0 1 2, exClip "C" 1 2 3] := by
  with_unfolding_all decide

/-- C5 (amended): for every collection of well-formed clips
(`startTime ≥ 0`, `endTime > startTime`), `autoArrange` is idempotent up to
ordering — re-arranging an arranged collection returns the same clips
unchanged, merely re-sorted by start time, so as an unordered collection it
is identical; the arranged result has zero collisions reported by
`detectCollisions`; each clip keeps its id, its stored duration, and its
extent `endTime − startTime` under arrangement; and a collection already
free of collisions is only re-sorted, every clip left untouched. -/
theorem c5_autoArrange_properties (l : List TimelineClip)
    (h0 : ∀ c ∈ l, 0 ≤ c.startTime) (h2 : ∀ c ∈ l, c.startTime < c.endTime) :
    (autoArrangeClips (autoArrangeClips l)).Perm (autoArrangeClips l) ∧
    detectClipCollisions (autoArrangeClips l) = [] ∧
    List.Forall₂ (fun a b => b.id = a.id ∧ b.trackIndex = a.trackIndex ∧
      b.duration = a.duration ∧
      b.endTime - b.startTime = a.endTime - a.startTime)
      (sortByStart l) (autoArrangeClips l) ∧
    (sortByStart l).Perm l ∧
    (detectClipCollisions l = [] → autoArrangeClips l = sortByStart l) := by
  have h2' : ∀ c ∈ l, c.startTime ≤ c.endTime := fun c hc => le_of_lt (h2 c hc)
  refine ⟨?_, arrange_no_collisions l h2', processArrange_forall₂ _ _,
    sortByStart_perm l, arrange_of_no_collisions l h0 h2⟩
  rw [arrange_arrange_eq_sort l h2']
  exact sortByStart_perm _

/-- Witness for C5 at the counterexample collection (idempotence up to
permutation and zero collisions) and at an already collision-free
collection (stability). -/
theorem c5_autoArrange_properties_witness :
    (autoArrangeClips (autoArrangeClips
      [exClip "A" 0 0 10, exClip "B" 0 1 2, exClip "C" 1 2 3])).Perm
      (autoArrangeClips [exClip "A" 0 0 10, exClip "B" 0 1 2, exClip "C" 1 2 3]) ∧
    detectClipCollisions (autoArrangeClips
      [exClip "A" 0 0 10, exClip "B" 0 1 2, exClip "C" 1 2 3]) = [] ∧
    autoArrangeClips [exClip "B" 0 10 12, exClip "A" 0 0 10] =
      sortByStart [exClip "B" 0 10 12, exClip "A" 0 0 10] :=
  ⟨(c5_autoArrange_properties
      [exClip "A" 0 0 10, exClip "B" 0 1 2, exClip "C" 1 2 3]
      (by with_unfolding_all decide) (by with_unfolding_all decide)).1,
   (c5_autoArrange_properties
      [exClip "A" 0 0 10, exClip "B" 0 1 2, exClip "C" 1 2 3]
      (by with_unfolding_all decide) (by with_unfolding_all decide)).2.1,
   (c5_autoArrange_properties [exClip "B" 0 10 12, exClip "A" 0 0 10]
      (by with_unfolding_all decide) (by with_unfolding_all decide)).2.2.2.2
      (by with_unfolding_all decide)⟩

end DualAvatar
